import Mathlib

/-!
Verification of the NuwaScript Python implementation
(`nuwa-script/implementations/python/nuwa/`): lexer.py, parser.py, ast.py,
interpreter.py, tools.py.

Shallow embedding conventions:
* Python runtime values (`int`, `float`, `str`, `bool`, `list`, `dict`,
  `None`) are the tagged union `Value`.  Python `float` is modelled as an
  exact rational (`ℚ`); the language's numeric literals are decimal, so the
  lexer's `float(...)` conversion is modelled as the exact decimal value.
* Python dicts with string keys are modelled as insertion-ordered
  association lists with unique keys (`dictSet` replaces in place, as a
  Python dict assignment does).
* Exceptions are modelled with `Except`: the structured error type `Err`
  has one constructor per distinct `raise` site of the interpreter, carrying
  the data that the corresponding f-string message interpolates.
* External collaborators (tool registry callables, the output handler, the
  `simpleeval` formula sub-evaluator, `time.time`) are supplied as an
  explicit environment `Ext` of pure functions, and external side effects
  are recorded in an event trace.
-/

namespace Nuwa

/-- Python runtime values flowing through the interpreter
(`interpreter.py` stores them in `self.variables`).  `float` is modelled
as an exact rational; `none` is Python `None`. -/
inductive Value where
  | int (n : ℤ)
  | float (q : ℚ)
  | str (s : String)
  | bool (b : Bool)
  | list (xs : List Value)
  | dict (entries : List (String × Value))
  | none
deriving Repr

/-- Python `type(x).__name__` for the modelled values (used in interpreter
error messages such as `got: {type(...)}`). -/
def Value.typeName : Value → String
  | .int _ => "int"
  | .float _ => "float"
  | .str _ => "str"
  | .bool _ => "bool"
  | .list _ => "list"
  | .dict _ => "dict"
  | .none => "NoneType"

/-- Python dict lookup `d[k]` / `k in d` on an insertion-ordered
association list. -/
def dictGet {α : Type} (entries : List (String × α)) (k : String) : Option α :=
  match entries with
  | [] => Option.none
  | (k1, v) :: rest => if k1 = k then some v else dictGet rest k

/-- Python dict assignment `d[k] = v`: replaces the value in place if the
key is present (keeping its position), otherwise appends (insertion
order). -/
def dictSet {α : Type} (entries : List (String × α)) (k : String) (v : α) :
    List (String × α) :=
  match entries with
  | [] => [(k, v)]
  | (k1, v1) :: rest =>
      if k1 = k then (k1, v) :: rest else (k1, v1) :: dictSet rest k v

/-- Python `del d[k]` on the association list (removes the first — by
uniqueness sole — entry with that key; the caller is responsible for the
`KeyError` when absent). -/
def dictDel {α : Type} (entries : List (String × α)) (k : String) :
    List (String × α) :=
  match entries with
  | [] => []
  | (k1, v1) :: rest =>
      if k1 = k then rest else (k1, v1) :: dictDel rest k

/-- `k in d` for the association-list dicts. -/
def dictContains {α : Type} (entries : List (String × α)) (k : String) : Bool :=
  (dictGet entries k).isSome

/-- Python numeric view: `int`, `float` and `bool` (a subclass of `int`:
`True == 1`) all compare numerically.  Other values are not numbers. -/
def numView : Value → Option ℚ
  | .int n => some (n : ℚ)
  | .float q => some q
  | .bool b => some (if b then 1 else 0)
  | _ => Option.none

/-- Python truthiness `bool(x)` as used by the interpreter's `AND`, `OR`
and `NOT` (`interpreter.py` lines 174-175, 190). -/
def pyTruthy : Value → Bool
  | .int n => n ≠ 0
  | .float q => q ≠ 0
  | .str s => s ≠ ""
  | .bool b => b
  | .list xs => !xs.isEmpty
  | .dict d => !d.isEmpty
  | .none => false

mutual

/-- Python `==` (`operator.eq`) on the modelled values: numeric kinds
compare by value (`1 == 1.0`, `True == 1`), strings and `None` by
identity of content, lists elementwise, dicts by key set and values;
mixed non-numeric kinds compare unequal (no exception). -/
def pyEq (a b : Value) : Bool :=
  match numView a, numView b with
  | some x, some y => x = y
  | _, _ =>
    match a, b with
    | .str s, .str t => s = t
    | .list xs, .list ys => pyEqList xs ys
    | .dict d1, .dict d2 => d1.length = d2.length ∧ pyEqEntries d1 d2
    | .none, .none => true
    | _, _ => false
termination_by sizeOf a
decreasing_by all_goals simp_wf <;> omega

/-- Elementwise list equality for `pyEq`. -/
def pyEqList (xs ys : List Value) : Bool :=
  match xs, ys with
  | [], [] => true
  | x :: xs1, y :: ys1 => pyEq x y && pyEqList xs1 ys1
  | _, _ => false
termination_by sizeOf xs
decreasing_by all_goals simp_wf <;> omega

/-- Every key of the first dict is present in the second with a `pyEq`
value (with the length check this is Python dict equality, since keys are
unique). -/
def pyEqEntries (d1 d2 : List (String × Value)) : Bool :=
  match d1 with
  | [] => true
  | (k, v) :: rest =>
    (match dictGet d2 k with
     | some w => pyEq v w
     | Option.none => false) && pyEqEntries rest d2
termination_by sizeOf d1
decreasing_by all_goals simp_wf <;> omega
end

mutual

/-- Python `<` (`operator.lt`): defined for numeric pairs, string pairs
and list pairs (lexicographic, first difference decided by `<`); any
other combination raises `TypeError`, modelled as `Except.error ()`. -/
def pyLt (a b : Value) : Except Unit Bool :=
  match numView a, numView b with
  | some x, some y => .ok (decide (x < y))
  | _, _ =>
    match a, b with
    | .str s, .str t => .ok (decide (s < t))
    | .list xs, .list ys => pyLtList xs ys
    | _, _ => .error ()
termination_by sizeOf a
decreasing_by all_goals simp_wf <;> omega

/-- Lexicographic strict comparison of Python lists. -/
def pyLtList (xs ys : List Value) : Except Unit Bool :=
  match xs, ys with
  | [], [] => .ok false
  | [], _ :: _ => .ok true
  | _ :: _, [] => .ok false
  | x :: xs1, y :: ys1 =>
      if pyEq x y then pyLtList xs1 ys1 else pyLt x y
termination_by sizeOf xs
decreasing_by all_goals simp_wf <;> omega
end

mutual

/-- Python `<=` (`operator.le`): as `pyLt`, except an exhausted list
prefix compares by length. -/
def pyLe (a b : Value) : Except Unit Bool :=
  match numView a, numView b with
  | some x, some y => .ok (decide (x ≤ y))
  | _, _ =>
    match a, b with
    | .str s, .str t => .ok (decide (s < t ∨ s = t))
    | .list xs, .list ys => pyLeList xs ys
    | _, _ => .error ()

/-- Lexicographic non-strict comparison of Python lists: the first
differing pair is decided by `<`, an exhausted side by length. -/
def pyLeList (xs ys : List Value) : Except Unit Bool :=
  match xs, ys with
  | [], _ => .ok true
  | _ :: _, [] => .ok false
  | x :: xs1, y :: ys1 =>
      if pyEq x y then pyLeList xs1 ys1 else pyLt x y
termination_by sizeOf xs
decreasing_by all_goals simp_wf <;> omega
end

/-- Python `>` — for the types above, `operator.gt a b` agrees with
`operator.lt b a` (numbers, strings, lists; `TypeError` cases match). -/
def pyGt (a b : Value) : Except Unit Bool := pyLt b a

/-- Python `>=` — mirror of `pyLe`. -/
def pyGe (a b : Value) : Except Unit Bool := pyLe b a

/-! ## The syntax tree (`ast.py`)

Expression and statement node variants.  Argument maps
(`Dict[str, Expression]`) are insertion-ordered association lists; the
parser builds them with `dictSet`, so their keys are unique.

`FunctionCall` deliberately has only `function_name`: in `ast.py` lines
39-44 the `arguments` field is commented out, which is load-bearing for
the behaviour of `NOW()` (see `evalFunctionCall` below). -/

/-- Expression nodes (`ast.py` `Expression` subclasses).  `pyNone` models
the Python `None` that `parser.py` line 139 can place in an expression
slot for member access on a non-variable. -/
inductive Expr where
  | literal (value : Value)
  | var (name : String)
  | binaryOp (operator : String) (left right : Expr)
  | unaryOp (operator : String) (operand : Expr)
  | functionCall (function_name : String)
  | callExpr (tool_name : String) (arguments : List (String × Expr))
  | calcExpr (formula : String) (varExprs : List (String × Expr))
  | pyNone
deriving Repr

/-- Statement nodes (`ast.py` `Statement` subclasses).  `funcCallStmt`
models a `FunctionCall` node in statement position, which
`interpreter.py` line 111 (`_execute_FunctionCall`) handles. -/
inductive Stmt where
  | letStmt (variable_name : String) (value : Expr)
  | callStmt (tool_name : String) (arguments : List (String × Expr))
  | ifStmt (condition : Expr) (then_block : List Stmt)
      (else_block : Option (List Stmt))
  | forStmt (iterator_variable : String) (iterable : Expr)
      (loop_block : List Stmt)
  | funcCallStmt (function_name : String)
deriving Repr

/-- A whole script: an ordered list of top-level statements. -/
structure Script where
  statements : List Stmt
deriving Repr

/-! ## Interpreter faults

`interpreter.py` raises `InterpreterError` with an f-string message at
each fault site; two raw Python exceptions can also escape
(`AttributeError` from the missing `FunctionCall.arguments` field and
`KeyError` from `del` on an absent key).  Each constructor corresponds
to one raise site and carries the data its message interpolates. -/
inductive Err where
  /-- line 64: execution not implemented for a node type -/
  | notImplementedStmt (tyName : String)
  /-- line 127: evaluation not implemented for a node type -/
  | notImplementedExpr (tyName : String)
  /-- line 82: IF condition did not evaluate to a boolean -/
  | ifCondNotBool (tyName : String)
  /-- line 93: FOR loop expected an iterable list -/
  | forNotList (tyName : String)
  /-- line 139: base variable of a dotted access not found -/
  | varNotFoundMember (base full : String)
  /-- line 152: member not found in a dict along the dotted path; the
  message shows the member, the path walked so far and the base value -/
  | memberNotFound (member path : String) (baseVal : Value)
  /-- line 158: member access on a non-dictionary intermediate value -/
  | memberOnNonDict (member path tyName : String)
  /-- line 163: plain variable not defined -/
  | varNotDefined (name : String)
  /-- line 182: TypeError during a binary operation -/
  | typeErrorBinOp (op : String) (left right : Value)
  /-- line 184: unsupported binary operator -/
  | unsupportedBinOp (op : String)
  /-- line 192: unsupported unary operator -/
  | unsupportedUnaryOp (op : String)
  /-- line 198: NOW() given arguments (unreachable, see `evalFunctionCall`) -/
  | nowArgs
  /-- line 202: PRINT() arity error (unreachable, see `evalFunctionCall`) -/
  | printArgCount
  /-- line 207: output handler raised -/
  | outputHandlerFailed (msg : String)
  /-- line 210: unknown built-in function name -/
  | unknownBuiltin (name : String)
  /-- line 239: `simpleeval.InvalidExpression` from the formula evaluator -/
  | calcInvalid (formula msg : String)
  /-- line 242: function not allowed in a CALC formula -/
  | calcFuncNotAllowed (funcName formula : String)
  /-- line 245: name used in the formula but absent from its `vars`
  mapping; the message lists the available names -/
  | calcNameNotDefined (name formula : String) (available : List String)
  /-- line 248: division by zero in a CALC formula -/
  | calcZeroDiv (formula : String)
  /-- line 251: any other exception from the formula evaluator -/
  | calcOther (formula tyName msg : String)
  /-- line 269: tool name not registered (`ToolNotFoundException` caught) -/
  | toolNotFound (name : String)
  /-- line 272: tool raised during execution; `msg` is the text of the
  `ToolExecutionError` the registry wrapped around the original
  exception (tools.py lines 10-15, 94-99) -/
  | toolExecFailed (name msg : String)
  /-- raw Python `AttributeError`: reading a field the dataclass does not
  define (not an `InterpreterError`) -/
  | attributeError (tyName attrName : String)
  /-- raw Python `KeyError` from `del` on an absent key (line 108) -/
  | keyError (key : String)
deriving Repr

/-! ## External collaborators -/

/-- Outcome of the `simpleeval` formula sub-evaluator, as the spec's §6
boundary describes it: distinct fault kinds for an invalid expression, a
disallowed function, a name absent from the supplied mapping, and
division by zero; `otherExc` covers any other exception (type name and
message). -/
inductive FormulaRes where
  | ok (v : Value)
  | invalidExpr (msg : String)
  | funcNotDefined (funcName : String)
  | nameNotDefined (name : String)
  | zeroDiv
  | otherExc (tyName msg : String)

/-- The interpreter's external world: registered tools (`ToolRegistry`;
a tool either returns a value or raises, with the exception's text), the
output handler, the formula sub-evaluator, and the wall-clock seconds
that `time.time()` would return. -/
structure Ext where
  tools : String → Option (List (String × Value) → Except String Value)
  handler : Value → Except String Unit
  feval : String → List (String × Value) → FormulaRes
  now : ℚ

/-- Observable external side effects, in order: tool invocations (with
their evaluated argument map) and values passed to the output handler. -/
inductive Event where
  | toolCall (name : String) (args : List (String × Value))
  | output (v : Value)
deriving Repr

/-- Interpreter state: the variable environment (`self.variables`, a flat
insertion-ordered dict) plus the trace of external effects so far. -/
structure St where
  vars : List (String × Value)
  trace : List Event
deriving Repr

/-- A fresh interpreter (`Interpreter.__init__`: empty variable dict). -/
def initSt : St := ⟨[], []⟩

/-! ## The tree-walking evaluator (`interpreter.py`) -/

/-- `ToolRegistry.call_tool` (tools.py 72-99) combined with the
interpreter's exception handling (`_execute_tool_call`, interpreter.py
264-272): an unregistered name raises `ToolNotFoundException`, mapped to
`Err.toolNotFound`; a raising tool is wrapped in `ToolExecutionError`
whose text the interpreter wraps again into `Err.toolExecFailed`.  The
invocation of a found tool is recorded in the trace. -/
def callTool (ext : Ext) (name : String) (eargs : List (String × Value))
    (st : St) : Except Err Value × St :=
  match ext.tools name with
  | Option.none => (.error (.toolNotFound name), st)
  | some f =>
    let st1 : St := { st with trace := st.trace ++ [.toolCall name eargs] }
    match f eargs with
    | .ok v => (.ok v, st1)
    | .error m => (.error (.toolExecFailed name m), st1)

/-- The member-access walk of `_evaluate_Variable` (interpreter.py
144-159): walk the remaining dotted segments through dict values,
carrying `current_path`; `baseVal` is the base variable's value shown in
the member-not-found message. -/
def walkMembers (baseVal : Value) (current : Value) (path : String) :
    List String → Except Err Value
  | [] => .ok current
  | m :: rest =>
    match current with
    | .dict d =>
      match dictGet d m with
      | some v => walkMembers baseVal v (path ++ "." ++ m) rest
      | Option.none => .error (.memberNotFound m path baseVal)
    | _ => .error (.memberOnNonDict m path current.typeName)

/-- Python `name.split(".")`, at the character-list level: cuts the
name at every dot; never empty (a dotless name yields one part). -/
def splitDotAux (acc : List Char) : List Char → List String
  | [] => [String.mk acc.reverse]
  | c :: rest =>
    if c = '.' then String.mk acc.reverse :: splitDotAux [] rest
    else splitDotAux (c :: acc) rest

/-- `name.split(".")` of `_evaluate_Variable` (interpreter.py 136). -/
def splitDot (name : String) : List String := splitDotAux [] name.data

/-- Python `'.' in node.name` (interpreter.py 135), at the
character-list level. -/
def hasDot (name : String) : Bool := name.data.contains '.'

/-- `_evaluate_FunctionCall` (interpreter.py 194-210).  Both the `NOW`
branch (line 197, `if node.arguments:`) and the `PRINT` branch (line
201, `len(node.arguments)`) read the `arguments` attribute, which
`ast.py`'s `FunctionCall` dataclass does not define (lines 43-44 are
commented out) — so both raise `AttributeError` before doing anything
else; any other name raises the unknown-built-in `InterpreterError`.
The `time.time()` return (line 199), the arity faults and the output
call are unreachable. -/
def evalFunctionCall (fname : String) : Except Err Value :=
  if fname = "NOW" then .error (.attributeError "FunctionCall" "arguments")
  else if fname = "PRINT" then .error (.attributeError "FunctionCall" "arguments")
  else .error (.unknownBuiltin fname)

/-- The `op_map` dispatch of `_evaluate_BinaryOp` (interpreter.py
170-184) applied to two already-evaluated operands, with `TypeError`
from the comparison operators caught and wrapped (line 182). -/
def applyBinOp (op : String) (lv rv : Value) : Except Err Value :=
  let wrap : Except Unit Bool → Except Err Value := fun r =>
    match r with
    | .ok b => .ok (.bool b)
    | .error _ => .error (.typeErrorBinOp op lv rv)
  if op = "==" then .ok (.bool (pyEq lv rv))
  else if op = "!=" then .ok (.bool (!pyEq lv rv))
  else if op = "<" then wrap (pyLt lv rv)
  else if op = "<=" then wrap (pyLe lv rv)
  else if op = ">" then wrap (pyGt lv rv)
  else if op = ">=" then wrap (pyGe lv rv)
  else if op = "AND" then .ok (.bool (pyTruthy lv && pyTruthy rv))
  else if op = "OR" then .ok (.bool (pyTruthy lv || pyTruthy rv))
  else .error (.unsupportedBinOp op)

/-- Dispatch on the formula sub-evaluator's outcome: the `except` clauses
of `_evaluate_CalcExpression` (interpreter.py 237-251), mapping each
fault kind of the §6 boundary to its `InterpreterError`; the
undefined-name fault lists the available names of the `vars` mapping. -/
def calcDispatch (ext : Ext) (formula : String)
    (lv : List (String × Value)) : Except Err Value :=
  match ext.feval formula lv with
  | .ok v => .ok v
  | .invalidExpr msg => .error (.calcInvalid formula msg)
  | .funcNotDefined f => .error (.calcFuncNotAllowed f formula)
  | .nameNotDefined n => .error (.calcNameNotDefined n formula (lv.map Prod.fst))
  | .zeroDiv => .error (.calcZeroDiv formula)
  | .otherExc ty msg => .error (.calcOther formula ty msg)

mutual

/-- `_evaluate_expression` dispatch (interpreter.py 119-251): evaluates
one expression node, threading the state (trace) and propagating the
first fault. -/
def evalExpr (ext : Ext) (e : Expr) (st : St) : Except Err Value × St :=
  match e with
  | .literal v => (.ok v, st)
  | .var name =>
    if hasDot name then
      let parts := splitDot name
      let base := parts.headD ""
      match dictGet st.vars base with
      | Option.none => (.error (.varNotFoundMember base name), st)
      | some bv => (walkMembers bv bv base parts.tail, st)
    else
      match dictGet st.vars name with
      | some v => (.ok v, st)
      | Option.none => (.error (.varNotDefined name), st)
  | .binaryOp op l r =>
    match evalExpr ext l st with
    | (.error err, st1) => (.error err, st1)
    | (.ok lv, st1) =>
      match evalExpr ext r st1 with
      | (.error err, st2) => (.error err, st2)
      | (.ok rv, st2) => (applyBinOp op lv rv, st2)
  | .unaryOp op e1 =>
    match evalExpr ext e1 st with
    | (.error err, st1) => (.error err, st1)
    | (.ok v, st1) =>
      if op = "NOT" then (.ok (.bool (!pyTruthy v)), st1)
      else (.error (.unsupportedUnaryOp op), st1)
  | .functionCall fname => (evalFunctionCall fname, st)
  | .callExpr name args =>
    match evalArgsFrom ext [] args st with
    | (.error err, st1) => (.error err, st1)
    | (.ok eargs, st1) => callTool ext name eargs st1
  | .calcExpr formula vars =>
    match evalArgsFrom ext [] vars st with
    | (.error err, st1) => (.error err, st1)
    | (.ok lv, st1) => (calcDispatch ext formula lv, st1)
  | .pyNone => (.error (.notImplementedExpr "NoneType"), st)

/-- The argument-evaluation loops of `_execute_tool_call` (interpreter.py
260-262) and `_evaluate_CalcExpression` (222-224): evaluate each value
expression in source order, filling a dict. -/
def evalArgsFrom (ext : Ext) (acc : List (String × Value))
    (args : List (String × Expr)) (st : St) :
    Except Err (List (String × Value)) × St :=
  match args with
  | [] => (.ok acc, st)
  | (k, e) :: rest =>
    match evalExpr ext e st with
    | (.error err, st1) => (.error err, st1)
    | (.ok v, st1) => evalArgsFrom ext (dictSet acc k v) rest st1

end

/-- Evaluate an argument map from an empty accumulator. -/
def evalArgs (ext : Ext) (args : List (String × Expr)) (st : St) :
    Except Err (List (String × Value)) × St :=
  evalArgsFrom ext [] args st

/-- The `finally` block of `_execute_ForStatement` (interpreter.py
103-108): if the captured `original_value` is not Python `None`, write
it back; otherwise `del` the loop variable (a `KeyError` if it is
absent).  Because the capture used `dict.get`, a stored `None` is
indistinguishable from absence here. -/
def restoreVar (x : String) (original : Value) (st : St) :
    Except Err Unit × St :=
  match original with
  | Value.none =>
    if dictContains st.vars x then (.ok (), { st with vars := dictDel st.vars x })
    else (.error (.keyError x), st)
  | v => (.ok (), { st with vars := dictSet st.vars x v })

mutual

/-- `_execute_statement` dispatch (interpreter.py 56-115). -/
def execStmt (ext : Ext) (s : Stmt) (st : St) : Except Err Unit × St :=
  match s with
  | .letStmt x e =>
    match evalExpr ext e st with
    | (.error err, st1) => (.error err, st1)
    | (.ok v, st1) => (.ok (), { st1 with vars := dictSet st1.vars x v })
  | .callStmt name args =>
    match evalArgsFrom ext [] args st with
    | (.error err, st1) => (.error err, st1)
    | (.ok eargs, st1) =>
      match callTool ext name eargs st1 with
      | (.error err, st2) => (.error err, st2)
      | (.ok _, st2) => (.ok (), st2)
  | .ifStmt c tb eb =>
    match evalExpr ext c st with
    | (.error err, st1) => (.error err, st1)
    | (.ok v, st1) =>
      match v with
      | .bool b =>
        if b then execStmts ext tb st1
        else
          match eb with
          | some els =>
            if els.isEmpty then (.ok (), st1) else execStmts ext els st1
          | Option.none => (.ok (), st1)
      | other => (.error (.ifCondNotBool other.typeName), st1)
  | .forStmt x iterE body =>
    match evalExpr ext iterE st with
    | (.error err, st1) => (.error err, st1)
    | (.ok v, st1) =>
      match v with
      | .list items => runForLoop ext x body items st1
      | other => (.error (.forNotList other.typeName), st1)
  | .funcCallStmt fname =>
    match evalFunctionCall fname with
    | .error err => (.error err, st)
    | .ok _ => (.ok (), st)
termination_by (sizeOf s, 0)

/-- `_execute_statements` (interpreter.py 51-54): statements in order,
stopping at the first fault. -/
def execStmts (ext : Ext) (l : List Stmt) (st : St) : Except Err Unit × St :=
  match l with
  | [] => (.ok (), st)
  | s :: rest =>
    match execStmt ext s st with
    | (.error err, st1) => (.error err, st1)
    | (.ok _, st1) => execStmts ext rest st1
termination_by (sizeOf l, 0)

/-- The `for item in iterable_value` loop of `_execute_ForStatement`
(interpreter.py 96-108): per item, capture the prior binding with
`dict.get`, bind the item, run the body, and restore in a `finally` —
also on a fault, which then still propagates (unless the restore itself
raises `KeyError`, which Python lets replace the in-flight fault). -/
def runForLoop (ext : Ext) (x : String) (body : List Stmt)
    (items : List Value) (st : St) : Except Err Unit × St :=
  match items with
  | [] => (.ok (), st)
  | item :: rest =>
    let original : Value := (dictGet st.vars x).getD Value.none
    let st1 : St := { st with vars := dictSet st.vars x item }
    match execStmts ext body st1 with
    | (.ok _, st2) =>
      match restoreVar x original st2 with
      | (.ok _, st3) => runForLoop ext x body rest st3
      | (.error err, st3) => (.error err, st3)
    | (.error err, st2) =>
      match restoreVar x original st2 with
      | (.ok _, st3) => (.error err, st3)
      | (.error err2, st3) => (.error err2, st3)
termination_by (sizeOf body, items.length + 1)

end

/-- `Interpreter.execute` (interpreter.py 45-49). -/
def execute (ext : Ext) (script : Script) (st : St) : Except Err Unit × St :=
  execStmts ext script.statements st

/-! ## The token scanner (`lexer.py`)

PLY tries the function rules (`t_NUMBER`, `t_newline`, `t_ID`,
`t_STRING`) in definition order and then the string rules sorted by
decreasing pattern length (`//.*`, `==`, `!=`, `>=`, `<=`, then the
single-character tokens); an unmatched character is reported and skipped
(`t_error`), scanning continuing one character later.  The scanner below
follows that priority order.  It is written with a step fuel (one unit
per emitted token / skipped character, so `length + 1` always suffices)
to keep it structurally recursive. -/

/-- Token kinds of `lexer.py`'s `tokens` tuple.  `NUMBER` carries the
already-converted value (`t_NUMBER`: `int` without a dot, `float` with),
`STRING` the decoded text, `BOOLEAN` the converted Python bool. -/
inductive Token where
  | LET | CALL | IF | THEN | ELSE | END | FOR | IN | DO | CALC
  | PRINT | NOW
  | ID (s : String) | NUMBER (v : Value) | STRING (s : String)
  | BOOLEAN (b : Bool)
  | ASSIGN | EQ | NE | GT | LT | GE | LE
  | AND | OR | NOT
  | LBRACE | RBRACE | LPAREN | RPAREN | COLON | COMMA | DOT
deriving Repr

/-- The `reserved` map of `lexer.py` (14-32): reserved words are matched
case-sensitively (uppercase only); `TRUE` and `FALSE` become `BOOLEAN`
tokens with converted values; anything else is an `ID`. -/
def reservedLookup (s : String) : Token :=
  if s = "LET" then .LET
  else if s = "CALL" then .CALL
  else if s = "IF" then .IF
  else if s = "THEN" then .THEN
  else if s = "ELSE" then .ELSE
  else if s = "END" then .END
  else if s = "FOR" then .FOR
  else if s = "IN" then .IN
  else if s = "DO" then .DO
  else if s = "CALC" then .CALC
  else if s = "PRINT" then .PRINT
  else if s = "AND" then .AND
  else if s = "OR" then .OR
  else if s = "NOT" then .NOT
  else if s = "NOW" then .NOW
  else if s = "TRUE" then .BOOLEAN true
  else if s = "FALSE" then .BOOLEAN false
  else .ID s

/-- Identifier continuation characters: `[a-zA-Z_0-9]`. -/
def isIdChar (c : Char) : Bool := c.isAlpha || c.isDigit || c = '_'

/-- Numeric value of a digit run, for `int(...)` in `t_NUMBER`. -/
def digitsNat (ds : List Char) : ℕ :=
  ds.foldl (fun a c => 10 * a + (c.toNat - 48)) 0

/-- Exact value of `float("<ds>.<fs>")` — the decimal denoted by the
dotted numeral (Python's IEEE rounding is abstracted to the exact
rational). -/
def floatVal (ds fs : List Char) : ℚ :=
  (digitsNat ds : ℚ) + (digitsNat fs : ℚ) / 10 ^ fs.length

/-- The body match of `t_STRING`'s pattern after the opening quote:
`([^\\"]|\\.)*"` — any run of non-quote non-backslash characters (which
may include raw newlines) or backslash-plus-one-character pairs (where
`.` does not match a newline), up to the closing quote.  Returns the raw
content and the remainder, or `none` when the pattern cannot match (so
the opening quote becomes an illegal character). -/
def strBody : List Char → Option (List Char × List Char)
  | [] => Option.none
  | c :: [] => if c = '"' then some ([], []) else Option.none
  | c :: c2 :: rest =>
    if c = '"' then some ([], c2 :: rest)
    else if c = '\\' then
      if c2 = '\n' then Option.none
      else (strBody rest).map (fun p => ('\\' :: c2 :: p.1, p.2))
    else (strBody (c2 :: rest)).map (fun p => (c :: p.1, p.2))

/-- UTF-8 encoding of one character — `str.encode()` in `t_STRING`. -/
def utf8Bytes (c : Char) : List ℕ :=
  let n := c.toNat
  if n < 128 then [n]
  else if n < 2048 then [192 + n / 64, 128 + n % 64]
  else if n < 65536 then
    [224 + n / 4096, 128 + n / 64 % 64, 128 + n % 64]
  else
    [240 + n / 262144, 128 + n / 4096 % 64, 128 + n / 64 % 64, 128 + n % 64]

/-- Octal digit test on a byte. -/
def isOctByte (b : ℕ) : Bool := 48 ≤ b && b ≤ 55

/-- Hex digit value of a byte, if any. -/
def hexVal (b : ℕ) : Option ℕ :=
  if 48 ≤ b && b ≤ 57 then some (b - 48)
  else if 97 ≤ b && b ≤ 102 then some (b - 87)
  else if 65 ≤ b && b ≤ 70 then some (b - 55)
  else Option.none

/-- A scalar value as a character, failing where Python's decoder raises
(beyond the Unicode range) — and also, as a modelling restriction, on
the surrogate range Lean's `Char` cannot represent. -/
def mkChar (n : ℕ) : Option Char :=
  if n.isValidChar then some (Char.ofNat n) else Option.none

/-- `bytes.decode("unicode_escape")` in `t_STRING` (lexer.py 86-90):
simple escapes, line continuation, octal (up to three digits), `\xhh`
(exactly two hex digits or an error), `\uhhhh`, `\Uhhhhhhhh`, unknown
escapes kept verbatim; other bytes map through latin-1.  `\N{...}` named
escapes are not modelled (`none`).  One fuel unit is spent per decoded
unit (each of which consumes at least one byte), so fuel `length + 1`
always completes. -/
def decodeUE : ℕ → List ℕ → Option (List Char)
  | 0, _ => Option.none
  | _ + 1, [] => some []
  | fuel + 1, b :: bs =>
    if b ≠ 92 then (decodeUE fuel bs).map (fun cs => Char.ofNat (b % 256) :: cs)
    else if bs.isEmpty then Option.none
    else
      if bs.headD 0 = 10 then decodeUE fuel bs.tail
      else if bs.headD 0 = 92 then
        (decodeUE fuel bs.tail).map (fun cs => '\\' :: cs)
      else if bs.headD 0 = 39 then
        (decodeUE fuel bs.tail).map (fun cs => '\'' :: cs)
      else if bs.headD 0 = 34 then
        (decodeUE fuel bs.tail).map (fun cs => '"' :: cs)
      else if bs.headD 0 = 97 then
        (decodeUE fuel bs.tail).map (fun cs => Char.ofNat 7 :: cs)
      else if bs.headD 0 = 98 then
        (decodeUE fuel bs.tail).map (fun cs => Char.ofNat 8 :: cs)
      else if bs.headD 0 = 102 then
        (decodeUE fuel bs.tail).map (fun cs => Char.ofNat 12 :: cs)
      else if bs.headD 0 = 110 then
        (decodeUE fuel bs.tail).map (fun cs => '\n' :: cs)
      else if bs.headD 0 = 114 then
        (decodeUE fuel bs.tail).map (fun cs => Char.ofNat 13 :: cs)
      else if bs.headD 0 = 116 then
        (decodeUE fuel bs.tail).map (fun cs => '\t' :: cs)
      else if bs.headD 0 = 118 then
        (decodeUE fuel bs.tail).map (fun cs => Char.ofNat 11 :: cs)
      else if isOctByte (bs.headD 0) then
        if bs.tail.isEmpty then some [Char.ofNat (bs.headD 0 - 48)]
        else if bs.tail.tail.isEmpty then
          if isOctByte (bs.tail.headD 0) then
            (decodeUE fuel []).map
              (fun cs =>
                Char.ofNat ((bs.headD 0 - 48) * 8 + (bs.tail.headD 0 - 48)) :: cs)
          else
            (decodeUE fuel bs.tail).map
              (fun cs => Char.ofNat (bs.headD 0 - 48) :: cs)
        else
          if isOctByte (bs.tail.headD 0) && isOctByte (bs.tail.tail.headD 0) then
            (decodeUE fuel bs.tail.tail.tail).map
              (fun cs => Char.ofNat ((bs.headD 0 - 48) * 64 +
                (bs.tail.headD 0 - 48) * 8 + (bs.tail.tail.headD 0 - 48)) :: cs)
          else if isOctByte (bs.tail.headD 0) then
            (decodeUE fuel bs.tail.tail).map
              (fun cs =>
                Char.ofNat ((bs.headD 0 - 48) * 8 + (bs.tail.headD 0 - 48)) :: cs)
          else
            (decodeUE fuel bs.tail).map
              (fun cs => Char.ofNat (bs.headD 0 - 48) :: cs)
      else if bs.headD 0 = 120 then
        if bs.tail.length < 2 then Option.none
        else
          (hexVal (bs.tail.headD 0)).elim Option.none (fun x1 =>
            (hexVal (bs.tail.tail.headD 0)).elim Option.none (fun x2 =>
              (decodeUE fuel bs.tail.tail.tail).map
                (fun cs => Char.ofNat (x1 * 16 + x2) :: cs)))
      else if bs.headD 0 = 117 then
        if bs.tail.length < 4 then Option.none
        else
          (hexVal ((bs.tail.drop 0).headD 0)).elim Option.none (fun x1 =>
            (hexVal ((bs.tail.drop 1).headD 0)).elim Option.none (fun x2 =>
              (hexVal ((bs.tail.drop 2).headD 0)).elim Option.none (fun x3 =>
                (hexVal ((bs.tail.drop 3).headD 0)).elim Option.none (fun x4 =>
                  (mkChar (((x1 * 16 + x2) * 16 + x3) * 16 + x4)).elim Option.none
                    (fun c => (decodeUE fuel (bs.tail.drop 4)).map
                      (fun cs => c :: cs))))))
      else if bs.headD 0 = 85 then
        if bs.tail.length < 8 then Option.none
        else
          (hexVal ((bs.tail.drop 0).headD 0)).elim Option.none (fun x1 =>
            (hexVal ((bs.tail.drop 1).headD 0)).elim Option.none (fun x2 =>
              (hexVal ((bs.tail.drop 2).headD 0)).elim Option.none (fun x3 =>
                (hexVal ((bs.tail.drop 3).headD 0)).elim Option.none (fun x4 =>
                  (hexVal ((bs.tail.drop 4).headD 0)).elim Option.none (fun x5 =>
                    (hexVal ((bs.tail.drop 5).headD 0)).elim Option.none (fun x6 =>
                      (hexVal ((bs.tail.drop 6).headD 0)).elim Option.none (fun x7 =>
                        (hexVal ((bs.tail.drop 7).headD 0)).elim Option.none (fun x8 =>
                          (mkChar (((((((x1 * 16 + x2) * 16 + x3) * 16 + x4) * 16 +
                              x5) * 16 + x6) * 16 + x7) * 16 + x8)).elim Option.none
                            (fun c => (decodeUE fuel (bs.tail.drop 8)).map
                              (fun cs => c :: cs))))))))))
      else if bs.headD 0 = 78 then Option.none
      else
        (decodeUE fuel bs.tail).map
          (fun cs => '\\' :: Char.ofNat (bs.headD 0 % 256) :: cs)

/-- One scanning step per fuel unit; mirrors PLY's rule priority (see
the section comment).  Every step consumes at least one character, so
fuel `length + 1` always completes. -/
def scanAux : ℕ → List Char → Option (List Token)
  | 0, _ => Option.none
  | _ + 1, [] => some []
  | fuel + 1, c :: cs =>
    if c = ' ' || c = '\t' then scanAux fuel cs
    else if c = '\n' then scanAux fuel cs
    else if c = '/' then
      if cs.headD ' ' = '/' then
        scanAux fuel ((c :: cs).dropWhile (fun ch => ch ≠ '\n'))
      else scanAux fuel cs
    else if c.isDigit then
      let ds := (c :: cs).takeWhile Char.isDigit
      let rest1 := (c :: cs).dropWhile Char.isDigit
      if rest1.headD ' ' = '.' then
        if (rest1.tail.headD ' ').isDigit then
          let fs := rest1.tail.takeWhile Char.isDigit
          let rest3 := rest1.tail.dropWhile Char.isDigit
          (scanAux fuel rest3).map
            (fun ts => .NUMBER (.float (floatVal ds fs)) :: ts)
        else
          (scanAux fuel rest1).map
            (fun ts => .NUMBER (.int (digitsNat ds)) :: ts)
      else
        (scanAux fuel rest1).map
          (fun ts => .NUMBER (.int (digitsNat ds)) :: ts)
    else if c.isAlpha || c = '_' then
      let ids := (c :: cs).takeWhile isIdChar
      let rest1 := (c :: cs).dropWhile isIdChar
      (scanAux fuel rest1).map (fun ts => reservedLookup (String.mk ids) :: ts)
    else if c = '"' then
      (strBody cs).elim (scanAux fuel cs) (fun p =>
        (decodeUE (((p.1.map utf8Bytes).flatten).length + 1)
            ((p.1.map utf8Bytes).flatten)).elim Option.none (fun dcs =>
          (scanAux fuel p.2).map (fun ts => .STRING (String.mk dcs) :: ts)))
    else if c = '=' then
      if cs.headD ' ' = '=' then (scanAux fuel cs.tail).map (fun ts => .EQ :: ts)
      else (scanAux fuel cs).map (fun ts => .ASSIGN :: ts)
    else if c = '!' then
      if cs.headD ' ' = '=' then (scanAux fuel cs.tail).map (fun ts => .NE :: ts)
      else scanAux fuel cs
    else if c = '>' then
      if cs.headD ' ' = '=' then (scanAux fuel cs.tail).map (fun ts => .GE :: ts)
      else (scanAux fuel cs).map (fun ts => .GT :: ts)
    else if c = '<' then
      if cs.headD ' ' = '=' then (scanAux fuel cs.tail).map (fun ts => .LE :: ts)
      else (scanAux fuel cs).map (fun ts => .LT :: ts)
    else if c = '{' then (scanAux fuel cs).map (fun ts => .LBRACE :: ts)
    else if c = '}' then (scanAux fuel cs).map (fun ts => .RBRACE :: ts)
    else if c = '(' then (scanAux fuel cs).map (fun ts => .LPAREN :: ts)
    else if c = ')' then (scanAux fuel cs).map (fun ts => .RPAREN :: ts)
    else if c = ':' then (scanAux fuel cs).map (fun ts => .COLON :: ts)
    else if c = ',' then (scanAux fuel cs).map (fun ts => .COMMA :: ts)
    else if c = '.' then (scanAux fuel cs).map (fun ts => .DOT :: ts)
    else scanAux fuel cs

/-- Tokenize a script: `none` only when string decoding raises (an
exception that would escape `lexer.token()`); illegal characters are
skipped diagnostically as in `t_error`. -/
def tokenize (src : String) : Option (List Token) :=
  scanAux (src.length + 1) src.data

/-! ## The grammar parser (`parser.py`)

`parser.py` hands yacc the productions of §4.2 with the precedence table

  `('left', OR) < ('left', AND) < ('right', NOT)
   < ('nonassoc', EQ NE LT LE GT GE)`

and `binary_op : expression DOT ID` without declared precedence, which
the LALR table resolves by shifting — `DOT` binds tightest.  The
recursive-descent rendering below parses one precedence level per
function; a failure returns `none`, matching `yacc.parse` returning
`None` after `p_error` (the uncaught `SyntaxError` raised by
`p_calc_args` for wrong key names also yields no tree and is folded into
`none`).  A second comparison operator directly after a completed
comparison is the nonassoc conflict, an immediate error in the LALR
table.  Fuel is decremented at every call; `parseTokens` supplies more
than the parse can consume. -/

/-- The comparison tokens with their operator spelling in the tree
(`p_binary_op`). -/
def cmpOpStr : Token → Option String
  | .EQ => some "=="
  | .NE => some "!="
  | .LT => some "<"
  | .LE => some "<="
  | .GT => some ">"
  | .GE => some ">="
  | _ => Option.none

mutual

/-- `expression` at the outermost (`OR`) precedence level. -/
def parseExpression : ℕ → List Token → Option (Expr × List Token)
  | 0, _ => Option.none
  | f + 1, ts =>
    match parseAnd f ts with
    | Option.none => Option.none
    | some (l, ts1) => parseOrLoop f l ts1

/-- Left-associative `expression OR expression`. -/
def parseOrLoop : ℕ → Expr → List Token → Option (Expr × List Token)
  | 0, _, _ => Option.none
  | f + 1, l, ts =>
    match ts with
    | .OR :: rest =>
      match parseAnd f rest with
      | Option.none => Option.none
      | some (r, ts1) => parseOrLoop f (.binaryOp "OR" l r) ts1
    | _ => some (l, ts)

/-- The `AND` precedence level. -/
def parseAnd : ℕ → List Token → Option (Expr × List Token)
  | 0, _ => Option.none
  | f + 1, ts =>
    match parseNotLvl f ts with
    | Option.none => Option.none
    | some (l, ts1) => parseAndLoop f l ts1

/-- Left-associative `expression AND expression`. -/
def parseAndLoop : ℕ → Expr → List Token → Option (Expr × List Token)
  | 0, _, _ => Option.none
  | f + 1, l, ts =>
    match ts with
    | .AND :: rest =>
      match parseNotLvl f rest with
      | Option.none => Option.none
      | some (r, ts1) => parseAndLoop f (.binaryOp "AND" l r) ts1
    | _ => some (l, ts)

/-- Prefix `NOT` (`p_unary_op`), binding between `AND` and the
comparisons. -/
def parseNotLvl : ℕ → List Token → Option (Expr × List Token)
  | 0, _ => Option.none
  | f + 1, .NOT :: rest =>
    match parseNotLvl f rest with
    | Option.none => Option.none
    | some (e, ts1) => some (.unaryOp "NOT" e, ts1)
  | f + 1, ts => parseCmp f ts

/-- The nonassoc comparison level: at most one comparison operator; a
second one at the same level is the nonassoc LALR error. -/
def parseCmp : ℕ → List Token → Option (Expr × List Token)
  | 0, _ => Option.none
  | f + 1, ts =>
    match parseDotLvl f ts with
    | Option.none => Option.none
    | some (l, ts1) =>
      match ts1 with
      | tok :: rest =>
        match cmpOpStr tok with
        | some op =>
          match parseDotLvl f rest with
          | Option.none => Option.none
          | some (r, ts2) =>
            match ts2 with
            | tok2 :: _ =>
              match cmpOpStr tok2 with
              | some _ => Option.none
              | Option.none => some (.binaryOp op l r, ts2)
            | [] => some (.binaryOp op l r, [])
        | Option.none => some (l, ts1)
      | [] => some (l, [])

/-- Member access `expression DOT ID` (tightest binder). -/
def parseDotLvl : ℕ → List Token → Option (Expr × List Token)
  | 0, _ => Option.none
  | f + 1, ts =>
    match parsePrimary f ts with
    | Option.none => Option.none
    | some (l, ts1) => parseDotLoop f l ts1

/-- The fold of `p_binary_op`'s DOT case: a `Variable` grows a dotted
name; member access on a non-variable leaves Python `None` in the slot
(parser.py 130-139). `DOT` not followed by an identifier is a syntax
error. -/
def parseDotLoop : ℕ → Expr → List Token → Option (Expr × List Token)
  | 0, _, _ => Option.none
  | f + 1, l, .DOT :: .ID m :: rest =>
    (match l with
     | .var n => parseDotLoop f (.var (n ++ "." ++ m)) rest
     | _ => parseDotLoop f .pyNone rest)
  | _ + 1, _, .DOT :: _ => Option.none
  | _ + 1, l, ts => some (l, ts)

/-- `p_expression` primary forms: parenthesized expression, the closed
built-in call form `NOW ( )` (`p_function_call` — the only built-in call
production), tool call, CALC block, literals, variable. -/
def parsePrimary : ℕ → List Token → Option (Expr × List Token)
  | 0, _ => Option.none
  | f + 1, .LPAREN :: rest =>
    (match parseExpression f rest with
     | some (e, .RPAREN :: ts1) => some (e, ts1)
     | _ => Option.none)
  | _ + 1, .NOW :: .LPAREN :: .RPAREN :: rest => some (.functionCall "NOW", rest)
  | f + 1, .CALL :: .ID t :: .LBRACE :: rest =>
    (match parseArguments f rest with
     | some (args, .RBRACE :: ts1) => some (.callExpr t args, ts1)
     | _ => Option.none)
  | f + 1, .CALC :: .LBRACE :: rest =>
    (match parseCalcArgs f rest with
     | some (p, .RBRACE :: ts1) => some (.calcExpr p.1 p.2, ts1)
     | _ => Option.none)
  | _ + 1, .NUMBER v :: rest => some (.literal v, rest)
  | _ + 1, .STRING s :: rest => some (.literal (.str s), rest)
  | _ + 1, .BOOLEAN b :: rest => some (.literal (.bool b), rest)
  | _ + 1, .ID x :: rest => some (.var x, rest)
  | _ + 1, _ => Option.none

/-- `p_arguments`: an argument list or empty; `p_argument_list` fills a
Python dict, later duplicates overwriting earlier keys. -/
def parseArguments : ℕ → List Token →
    Option (List (String × Expr) × List Token)
  | 0, _ => Option.none
  | f + 1, .ID k :: .COLON :: rest =>
    (match parseExpression f rest with
     | Option.none => Option.none
     | some (e, ts1) => parseArgLoop f (dictSet [] k e) ts1)
  | _ + 1, ts => some ([], ts)

/-- Continuation of `p_argument_list`: `COMMA argument` repetitions. -/
def parseArgLoop : ℕ → List (String × Expr) → List Token →
    Option (List (String × Expr) × List Token)
  | 0, _, _ => Option.none
  | f + 1, acc, .COMMA :: .ID k :: .COLON :: rest =>
    (match parseExpression f rest with
     | Option.none => Option.none
     | some (e, ts1) => parseArgLoop f (dictSet acc k e) ts1)
  | _ + 1, _, .COMMA :: _ => Option.none
  | _ + 1, acc, ts => some (acc, ts)

/-- `p_calc_args`: exactly `ID : STRING , ID : { arguments }` with the
first key `formula` and the second `vars` (otherwise `SyntaxError`). -/
def parseCalcArgs : ℕ → List Token →
    Option ((String × List (String × Expr)) × List Token)
  | 0, _ => Option.none
  | f + 1, .ID k1 :: .COLON :: .STRING s :: .COMMA ::
      .ID k2 :: .COLON :: .LBRACE :: rest =>
    (match parseArguments f rest with
     | some (args, .RBRACE :: ts1) =>
       if k1 = "formula" && k2 = "vars" then some ((s, args), ts1)
       else Option.none
     | _ => Option.none)
  | _ + 1, _ => Option.none

/-- `p_statement`: the four statement forms (there is no production for
a built-in call such as `PRINT(...)` in statement position). -/
def parseStmt : ℕ → List Token → Option (Stmt × List Token)
  | 0, _ => Option.none
  | f + 1, .LET :: .ID x :: .ASSIGN :: rest =>
    (match parseExpression f rest with
     | Option.none => Option.none
     | some (e, ts1) => some (.letStmt x e, ts1))
  | f + 1, .CALL :: .ID t :: .LBRACE :: rest =>
    (match parseArguments f rest with
     | some (args, .RBRACE :: ts1) => some (.callStmt t args, ts1)
     | _ => Option.none)
  | f + 1, .IF :: rest =>
    (match parseExpression f rest with
     | some (c, .THEN :: ts1) =>
       (match parseStmtList f ts1 with
        | some (tb, .END :: ts2) => some (.ifStmt c tb Option.none, ts2)
        | some (tb, .ELSE :: ts2) =>
          (match parseStmtList f ts2 with
           | some (eb, .END :: ts3) => some (.ifStmt c tb (some eb), ts3)
           | _ => Option.none)
        | _ => Option.none)
     | _ => Option.none)
  | f + 1, .FOR :: .ID v :: .IN :: rest =>
    (match parseExpression f rest with
     | some (iter, .DO :: ts1) =>
       (match parseStmtList f ts1 with
        | some (body, .END :: ts2) => some (.forStmt v iter body, ts2)
        | _ => Option.none)
     | _ => Option.none)
  | _ + 1, _ => Option.none

/-- `p_statements`: one or more statements. -/
def parseStmtList : ℕ → List Token → Option (List Stmt × List Token)
  | 0, _ => Option.none
  | f + 1, ts =>
    match parseStmt f ts with
    | Option.none => Option.none
    | some (s, ts1) => parseStmtLoop f [s] ts1

/-- Statement-list continuation: a statement can only start with `LET`,
`CALL`, `IF` or `FOR`; any other lookahead ends the block. -/
def parseStmtLoop : ℕ → List Stmt → List Token →
    Option (List Stmt × List Token)
  | 0, _, _ => Option.none
  | f + 1, acc, ts =>
    match ts with
    | .LET :: _ | .CALL :: _ | .IF :: _ | .FOR :: _ =>
      (match parseStmt f ts with
       | Option.none => Option.none
       | some (s, ts1) => parseStmtLoop f (acc ++ [s]) ts1)
    | _ => some (acc, ts)

end

/-- `p_script` plus yacc's end-of-input handling: the whole token
sequence must be consumed by `statements`, and a parse error yields no
tree. -/
def parseTokens (ts : List Token) : Option Script :=
  match parseStmtList ((ts.length + 1) * 16) ts with
  | some (stmts, []) => some ⟨stmts⟩
  | _ => Option.none

/-- `parse_script` (parser.py 198-203): tokenize then parse; any
failure (including the lexer's decoding exception) yields no tree. -/
def parseScript (src : String) : Option Script :=
  match tokenize src with
  | Option.none => Option.none
  | some ts => parseTokens ts

/-- A concrete external world for witnesses: one registered tool `t`
returning 7, one tool `boom` whose callable raises `ValueError: Failed`
(as the test registry's `tool_that_errors` does), an output handler
that succeeds, and a formula evaluator that reports any name outside
the supplied mapping as undefined and otherwise evaluates nothing. -/
def extDemo : Ext where
  tools n :=
    if n = "t" then some (fun _ => .ok (.int 7))
    else if n = "boom" then some (fun _ => .error "Failed")
    else Option.none
  handler _ := .ok ()
  feval _ lv :=
    if (dictGet lv "x").isSome then .ok (.int 0) else .nameNotDefined "x"
  now := 0

/-! ## Basic dictionary lemmas -/

theorem dictGet_dictSet_self {α : Type} (d : List (String × α)) (k : String)
    (v : α) : dictGet (dictSet d k v) k = some v := by
  induction d with
  | nil => simp [dictSet, dictGet]
  | cons hd tl ih =>
    obtain ⟨k1, v1⟩ := hd
    by_cases h : k1 = k <;> simp [dictSet, dictGet, h, ih]

theorem dictGet_dictSet_ne {α : Type} (d : List (String × α)) (k k2 : String)
    (v : α) (h : k ≠ k2) : dictGet (dictSet d k v) k2 = dictGet d k2 := by
  induction d with
  | nil => simp [dictSet, dictGet, h]
  | cons hd tl ih =>
    obtain ⟨k1, v1⟩ := hd
    by_cases h1 : k1 = k <;> simp [dictSet, dictGet, h1, ih]
    · subst h1; simp [h, dictGet]

/-- `callTool` never touches the variable environment. -/
theorem callTool_vars (ext : Ext) (n : String) (a : List (String × Value))
    (st : St) : ((callTool ext n a st).2).vars = st.vars := by
  rw [callTool]
  split
  · rfl
  · split <;> rfl

mutual

/-- Expression evaluation can extend the trace but never mutates the
variable environment: no expression form of the language assigns. -/
theorem evalExpr_vars (ext : Ext) (e : Expr) (st : St) :
    ((evalExpr ext e st).2).vars = st.vars := by
  cases e with
  | literal v => simp [evalExpr]
  | var name =>
    rw [evalExpr]
    by_cases h : hasDot name <;> simp only [h, if_true, if_false]
    · cases hg : dictGet st.vars ((splitDot name).headD "") <;> simp [hg]
    · cases hg : dictGet st.vars name <;> simp [hg]
  | binaryOp op l r =>
    rw [evalExpr]
    rcases h1 : evalExpr ext l st with ⟨r1, st1⟩
    have ih1 := evalExpr_vars ext l st
    rw [h1] at ih1
    simp only at ih1
    rcases r1 with err | lv
    · simpa using ih1
    · rcases h2 : evalExpr ext r st1 with ⟨r2, st2⟩
      have ih2 := evalExpr_vars ext r st1
      rw [h2] at ih2
      simp only at ih2
      rcases r2 with err | rv <;> simpa [h2] using ih2.trans ih1
  | unaryOp op e1 =>
    rw [evalExpr]
    rcases h1 : evalExpr ext e1 st with ⟨r1, st1⟩
    have ih1 := evalExpr_vars ext e1 st
    rw [h1] at ih1
    simp only at ih1
    rcases r1 with err | v
    · simpa using ih1
    · by_cases h : op = "NOT" <;> simpa [h] using ih1
  | functionCall fname => simp [evalExpr]
  | callExpr name args =>
    rw [evalExpr]
    rcases h1 : evalArgsFrom ext [] args st with ⟨r1, st1⟩
    have ih1 := evalArgsFrom_vars ext [] args st
    rw [h1] at ih1
    simp only at ih1
    rcases r1 with err | eargs
    · simpa using ih1
    · have hc := callTool_vars ext name eargs st1
      simpa using hc.trans ih1
  | calcExpr formula vs =>
    rw [evalExpr]
    rcases h1 : evalArgsFrom ext [] vs st with ⟨r1, st1⟩
    have ih1 := evalArgsFrom_vars ext [] vs st
    rw [h1] at ih1
    simp only at ih1
    rcases r1 with err | lv <;> simpa using ih1
  | pyNone => simp [evalExpr]

/-- As `evalExpr_vars`, for the argument-evaluation loop. -/
theorem evalArgsFrom_vars (ext : Ext) (acc : List (String × Value))
    (args : List (String × Expr)) (st : St) :
    ((evalArgsFrom ext acc args st).2).vars = st.vars := by
  cases args with
  | nil => simp [evalArgsFrom]
  | cons hd rest =>
    obtain ⟨k, e⟩ := hd
    rw [evalArgsFrom]
    rcases h1 : evalExpr ext e st with ⟨r1, st1⟩
    have ih1 := evalExpr_vars ext e st
    rw [h1] at ih1
    simp only at ih1
    rcases r1 with err | v
    · simpa using ih1
    · have ih2 := evalArgsFrom_vars ext (dictSet acc k v) rest st1
      simpa using ih2.trans ih1

end

/-! ## Claim theorems -/

/-- C1 (code bug): evaluating the zero-argument built-in `NOW()` does
not return the wall-clock time — it raises a raw Python
`AttributeError`, because `_evaluate_FunctionCall` reads
`node.arguments` (interpreter.py line 197) while `ast.py`'s
`FunctionCall` dataclass defines no `arguments` field (lines 43-44 are
commented out).  The script `LET t1 = NOW()` parses to exactly the
node the test `test_interpreter_now_function` exercises, and its
execution faults with the attribute error in every state, never
producing the `float` from `time.time()`. -/
theorem C1_now_raises_attribute_error :
    parseScript "LET t1 = NOW()" =
      some ⟨[.letStmt "t1" (.functionCall "NOW")]⟩ ∧
    ∀ (ext : Ext) (st : St),
      execute ext ⟨[.letStmt "t1" (.functionCall "NOW")]⟩ st =
        (.error (.attributeError "FunctionCall" "arguments"), st) := by
  refine ⟨rfl, fun ext st => ?_⟩
  simp [execute, execStmts, execStmt, evalExpr, evalFunctionCall]

/-- C2 (code bug): the single-argument output call `PRINT("Hello
World")` does not parse.  The lexer recognizes `PRINT` as its reserved
token, but no grammar production of `parser.py` mentions it (the only
built-in call production is `p_function_call : NOW ( )`), and
`p_statement` derives only LET/CALL/IF/FOR — so the parser fails and
yields no tree, contradicting `test_parse_print_function`. -/
theorem C2_print_call_does_not_parse :
    tokenize "PRINT(\"Hello World\")" =
      some [.PRINT, .LPAREN, .STRING "Hello World", .RPAREN] ∧
    parseScript "PRINT(\"Hello World\")" = Option.none :=
  ⟨rfl, rfl⟩

/-- C10: a LET whose right-hand side faults leaves the variable
environment exactly as it was — the fault is the whole outcome of the
statement, the store on interpreter.py line 71 never happens, and no
expression evaluation mutates the environment. -/
theorem C10_let_fault_leaves_env_unchanged (ext : Ext) (x : String)
    (e : Expr) (st : St) (err : Err) (st2 : St)
    (h : evalExpr ext e st = (.error err, st2)) :
    execStmt ext (.letStmt x e) st = (.error err, st2) ∧
    st2.vars = st.vars := by
  have hv := evalExpr_vars ext e st
  rw [h] at hv
  refine ⟨?_, hv⟩
  rw [execStmt, h]

/-- C10 witness: `LET y = x` in the empty environment faults with
undefined variable `x` and leaves the (empty) environment unchanged. -/
theorem C10_let_fault_witness :
    evalExpr extDemo (.var "x") initSt =
      (.error (.varNotDefined "x"), initSt) ∧
    execStmt extDemo (.letStmt "y" (.var "x")) initSt =
      (.error (.varNotDefined "x"), initSt) ∧
    initSt.vars = initSt.vars := by
  have hdot : hasDot "x" = false := by decide
  have h : evalExpr extDemo (.var "x") initSt =
      (.error (.varNotDefined "x"), initSt) := by
    simp [evalExpr, initSt, dictGet, hdot]
  have h2 := C10_let_fault_leaves_env_unchanged extDemo "y" (.var "x")
    initSt (.varNotDefined "x") initSt h
  exact ⟨h, h2.1, h2.2⟩

/-- C4: `AND`/`OR` evaluate both operand expressions unconditionally
(interpreter.py lines 167-168 run before the operator dispatch), then
coerce each result with `bool(...)` truthiness and combine — the result
state is the state after the right operand's evaluation (including any
tool-call side effects it performed), even when the left operand's
truthiness already determines the outcome. -/
theorem C4_and_or_evaluate_both_operands (ext : Ext) (l r : Expr)
    (st st1 st2 : St) (lv rv : Value) (op : String)
    (hop : op = "AND" ∨ op = "OR")
    (h1 : evalExpr ext l st = (.ok lv, st1))
    (h2 : evalExpr ext r st1 = (.ok rv, st2)) :
    evalExpr ext (.binaryOp op l r) st =
      (.ok (.bool (if op = "AND" then pyTruthy lv && pyTruthy rv
                   else pyTruthy lv || pyTruthy rv)), st2) := by
  rcases hop with hop | hop <;> subst hop <;>
    simp [evalExpr, h1, h2, applyBinOp]

/-- C4 witness: `FALSE AND (CALL t {})` — the left operand is already
decisive, yet the tool call on the right is invoked (it appears in the
final trace) before truthiness combines to `FALSE`. -/
theorem C4_witness :
    evalExpr extDemo (.literal (.bool false)) initSt =
      (.ok (.bool false), initSt) ∧
    evalExpr extDemo (.callExpr "t" []) initSt =
      (.ok (.int 7), ⟨[], [.toolCall "t" []]⟩) ∧
    evalExpr extDemo
        (.binaryOp "AND" (.literal (.bool false)) (.callExpr "t" [])) initSt =
      (.ok (.bool false), ⟨[], [.toolCall "t" []]⟩) := by
  have h1 : evalExpr extDemo (.literal (.bool false)) initSt =
      (.ok (.bool false), initSt) := by simp [evalExpr]
  have h2 : evalExpr extDemo (.callExpr "t" []) initSt =
      (.ok (.int 7), ⟨[], [.toolCall "t" []]⟩) := by
    simp [evalExpr, evalArgsFrom, callTool, extDemo, initSt]
  have h3 := C4_and_or_evaluate_both_operands extDemo
    (.literal (.bool false)) (.callExpr "t" []) initSt initSt
    ⟨[], [.toolCall "t" []]⟩ (.bool false) (.int 7) "AND" (Or.inl rfl) h1 h2
  exact ⟨h1, h2, by simpa [pyTruthy] using h3⟩

/-- C5: with the arguments already evaluated, a tool call (in statement
or expression position) to an unregistered name faults as
`toolNotFound`, and a call whose tool raises faults as
`toolExecFailed`; both interpreter faults carry the tool name, the
second also records the attempted invocation in the trace, and the two
fault kinds are distinct. -/
theorem C5_tool_fault_kinds (ext : Ext) (name : String)
    (args : List (String × Expr)) (st st1 : St)
    (eargs : List (String × Value))
    (h : evalArgsFrom ext [] args st = (.ok eargs, st1)) :
    (ext.tools name = Option.none →
      evalExpr ext (.callExpr name args) st =
        (.error (.toolNotFound name), st1) ∧
      execStmt ext (.callStmt name args) st =
        (.error (.toolNotFound name), st1)) ∧
    (∀ f m, ext.tools name = some f → f eargs = .error m →
      evalExpr ext (.callExpr name args) st =
        (.error (.toolExecFailed name m),
          { st1 with trace := st1.trace ++ [.toolCall name eargs] }) ∧
      execStmt ext (.callStmt name args) st =
        (.error (.toolExecFailed name m),
          { st1 with trace := st1.trace ++ [.toolCall name eargs] })) ∧
    (∀ n1 n2 m, Err.toolNotFound n1 ≠ Err.toolExecFailed n2 m) := by
  refine ⟨fun hn => ?_, fun f m hf hr => ?_, fun n1 n2 m hc => by cases hc⟩
  · constructor <;> simp [evalExpr, execStmt, h, callTool, hn]
  · constructor <;> simp [evalExpr, execStmt, h, callTool, hf, hr]

/-- C5 witness: calling the unregistered `missing` faults as
`toolNotFound "missing"`; calling `boom`, whose callable raises
`ValueError: Failed`, faults as `toolExecFailed "boom" "Failed"` with
the invocation traced. -/
theorem C5_witness :
    evalArgsFrom extDemo [] [] initSt = (.ok [], initSt) ∧
    extDemo.tools "missing" = Option.none ∧
    evalExpr extDemo (.callExpr "missing" []) initSt =
      (.error (.toolNotFound "missing"), initSt) ∧
    evalExpr extDemo (.callExpr "boom" []) initSt =
      (.error (.toolExecFailed "boom" "Failed"),
        ⟨[], [.toolCall "boom" []]⟩) := by
  have h : evalArgsFrom extDemo [] [] initSt = (.ok [], initSt) := by
    simp [evalArgsFrom]
  have hmiss : extDemo.tools "missing" = Option.none := by simp [extDemo]
  have hboom : extDemo.tools "boom" =
      some (fun _ => .error "Failed") := by simp [extDemo]
  have k1 := (C5_tool_fault_kinds extDemo "missing" [] initSt initSt [] h).1 hmiss
  have k2 := ((C5_tool_fault_kinds extDemo "boom" [] initSt initSt [] h).2.1
    (fun _ => .error "Failed") "Failed" hboom rfl).1
  exact ⟨h, hmiss, k1.1, by simpa [initSt] using k2⟩

/-- C7: a CALC formula block is evaluated against exactly the
name-to-value map built from its own `vars` list: with those evaluated
to `lv`, the result is a pure dispatch on `ext.feval formula lv`
(never consulting the ambient environment); in particular an undefined
name reported by the sub-evaluator becomes the distinct
`calcNameNotDefined` interpreter fault listing the map's own keys. -/
theorem C7_calc_own_vars_only (ext : Ext) (f : String)
    (vs : List (String × Expr)) (st st1 : St)
    (lv : List (String × Value))
    (h : evalArgsFrom ext [] vs st = (.ok lv, st1)) :
    evalExpr ext (.calcExpr f vs) st = (calcDispatch ext f lv, st1) ∧
    (∀ n, ext.feval f lv = .nameNotDefined n →
      evalExpr ext (.calcExpr f vs) st =
        (.error (.calcNameNotDefined n f (lv.map Prod.fst)), st1)) := by
  refine ⟨by simp [evalExpr, h], fun n hn => ?_⟩
  simp [evalExpr, h, calcDispatch, hn]

/-- C7 witness: `CALC { formula: "x + 1", vars: {} }` in an ambient
environment that does bind `x` still faults with the undefined-name
kind for `x` — the binding is not silently resolved. -/
theorem C7_witness :
    evalArgsFrom extDemo [] [] ⟨[("x", .int 5)], []⟩ =
      (.ok [], ⟨[("x", .int 5)], []⟩) ∧
    extDemo.feval "x + 1" [] = .nameNotDefined "x" ∧
    evalExpr extDemo (.calcExpr "x + 1" []) ⟨[("x", .int 5)], []⟩ =
      (.error (.calcNameNotDefined "x" "x + 1" []), ⟨[("x", .int 5)], []⟩) := by
  have h : evalArgsFrom extDemo [] [] ⟨[("x", .int 5)], []⟩ =
      (.ok [], ⟨[("x", .int 5)], []⟩) := by simp [evalArgsFrom]
  have hfe : extDemo.feval "x + 1" [] = .nameNotDefined "x" := by
    simp [extDemo, dictGet]
  have k := (C7_calc_own_vars_only extDemo "x + 1" []
    ⟨[("x", .int 5)], []⟩ ⟨[("x", .int 5)], []⟩ [] h).2 "x" hfe
  exact ⟨h, hfe, by simpa using k⟩

/-! ## Key uniqueness

A Python dict cannot hold duplicate keys; the association lists
representing interpreter states therefore carry unique keys, and every
dict operation preserves that invariant.  The FOR-loop restoration
argument needs it (so that `del` really removes the binding). -/

/-- The key list of a dict. -/
def dictKeys {α : Type} (d : List (String × α)) : List String :=
  d.map Prod.fst

theorem dictGet_eq_none_iff {α : Type} (d : List (String × α)) (k : String) :
    dictGet d k = Option.none ↔ k ∉ dictKeys d := by
  induction d with
  | nil => simp [dictGet, dictKeys]
  | cons hd tl ih =>
    obtain ⟨k1, v1⟩ := hd
    by_cases h : k1 = k
    · subst h; simp [dictGet, dictKeys]
    · have hne : k ≠ k1 := fun hc => h hc.symm
      simp [dictGet, dictKeys, h, hne] at ih ⊢
      exact ih

theorem dictKeys_dictSet {α : Type} (d : List (String × α)) (k : String)
    (v : α) :
    dictKeys (dictSet d k v) =
      if k ∈ dictKeys d then dictKeys d else dictKeys d ++ [k] := by
  induction d with
  | nil => simp [dictSet, dictKeys]
  | cons hd tl ih =>
    obtain ⟨k1, v1⟩ := hd
    by_cases h : k1 = k
    · subst h; simp [dictSet, dictKeys]
    · have hne : k ≠ k1 := fun hc => h hc.symm
      simp only [dictKeys, dictSet, if_neg h, List.map_cons]
      simp only [dictKeys] at ih
      rw [ih]
      by_cases hm : k ∈ List.map Prod.fst tl
      · simp [hm, hne]
      · simp [hm, hne]

theorem dictSet_nodup {α : Type} (d : List (String × α)) (k : String) (v : α)
    (h : (dictKeys d).Nodup) : (dictKeys (dictSet d k v)).Nodup := by
  rw [dictKeys_dictSet]
  by_cases hm : k ∈ dictKeys d
  · simpa [hm] using h
  · simp only [hm, if_false]
    exact List.Nodup.append h (List.nodup_singleton k)
      (fun a ha hb => hm ((List.mem_singleton.mp hb) ▸ ha))

theorem dictKeys_dictDel_sublist {α : Type} (d : List (String × α))
    (k : String) : (dictKeys (dictDel d k)).Sublist (dictKeys d) := by
  induction d with
  | nil => simp [dictDel, dictKeys]
  | cons hd tl ih =>
    obtain ⟨k1, v1⟩ := hd
    by_cases h : k1 = k
    · simp only [dictDel, if_pos h, dictKeys, List.map_cons]
      exact List.sublist_cons_of_sublist k1 (List.Sublist.refl _)
    · simp only [dictDel, if_neg h, dictKeys, List.map_cons]
      exact List.Sublist.cons₂ k1 (by simpa [dictKeys] using ih)

theorem dictDel_nodup {α : Type} (d : List (String × α)) (k : String)
    (h : (dictKeys d).Nodup) : (dictKeys (dictDel d k)).Nodup :=
  (dictKeys_dictDel_sublist d k).nodup h

/-- With unique keys, `del` really deletes: the key is gone. -/
theorem dictGet_dictDel_self {α : Type} (d : List (String × α)) (k : String)
    (h : (dictKeys d).Nodup) : dictGet (dictDel d k) k = Option.none := by
  induction d with
  | nil => simp [dictDel, dictGet]
  | cons hd tl ih =>
    obtain ⟨k1, v1⟩ := hd
    have hh : (k1 :: dictKeys tl).Nodup := by simpa [dictKeys] using h
    have h1 : k1 ∉ dictKeys tl := (List.nodup_cons.mp hh).1
    have h2 : (dictKeys tl).Nodup := (List.nodup_cons.mp hh).2
    by_cases hk : k1 = k
    · subst hk
      simp only [dictDel, if_pos rfl]
      rw [dictGet_eq_none_iff]
      exact h1
    · simp only [dictDel, if_neg hk, dictGet, if_neg hk]
      exact ih h2

/-- `restoreVar` preserves key uniqueness. -/
theorem restoreVar_nodup (x : String) (original : Value) (st : St)
    (h : (dictKeys st.vars).Nodup) :
    (dictKeys (((restoreVar x original st).2).vars)).Nodup := by
  cases original with
  | none =>
    rw [restoreVar]
    by_cases hc : dictContains st.vars x = true <;>
      simp [hc, dictDel_nodup _ _ h, h]
  | int n => exact dictSet_nodup _ _ _ h
  | float q => exact dictSet_nodup _ _ _ h
  | str s => exact dictSet_nodup _ _ _ h
  | bool b => exact dictSet_nodup _ _ _ h
  | list xs => exact dictSet_nodup _ _ _ h
  | dict d => exact dictSet_nodup _ _ _ h

mutual

/-- Statement execution preserves key uniqueness of the variable dict. -/
theorem execStmt_nodup (ext : Ext) (s : Stmt) (st : St)
    (h : (dictKeys st.vars).Nodup) :
    (dictKeys (((execStmt ext s st).2).vars)).Nodup := by
  cases s with
  | letStmt x e =>
    rw [execStmt]
    rcases h1 : evalExpr ext e st with ⟨r1, st1⟩
    have hv := evalExpr_vars ext e st
    rw [h1] at hv
    simp only at hv
    rcases r1 with err | v <;> simp
    · exact hv ▸ h
    · exact dictSet_nodup _ _ _ (hv ▸ h)
  | callStmt name args =>
    rw [execStmt]
    rcases h1 : evalArgsFrom ext [] args st with ⟨r1, st1⟩
    have hv := evalArgsFrom_vars ext [] args st
    rw [h1] at hv
    simp only at hv
    rcases r1 with err | eargs <;> simp
    · exact hv ▸ h
    · rcases h2 : callTool ext name eargs st1 with ⟨r2, st2⟩
      have hv2 := callTool_vars ext name eargs st1
      rw [h2] at hv2
      simp only at hv2
      rcases r2 with err | v <;> simp <;> exact (hv2.trans hv) ▸ h
  | ifStmt c tb eb =>
    rw [execStmt]
    rcases h1 : evalExpr ext c st with ⟨r1, st1⟩
    have hv := evalExpr_vars ext c st
    rw [h1] at hv
    simp only at hv
    rcases r1 with err | v
    · simpa using hv ▸ h
    · cases v with
      | bool b =>
        rcases b with _ | _ <;> simp
        · cases eb with
          | none => simpa using hv ▸ h
          | some els =>
            by_cases hels : els.isEmpty <;> simp [hels]
            · exact hv ▸ h
            · exact execStmts_nodup ext els st1 (hv ▸ h)
        · exact execStmts_nodup ext tb st1 (hv ▸ h)
      | int n => simpa using hv ▸ h
      | float q => simpa using hv ▸ h
      | str s => simpa using hv ▸ h
      | list xs => simpa using hv ▸ h
      | dict d => simpa using hv ▸ h
      | none => simpa using hv ▸ h
  | forStmt x iterE body =>
    rw [execStmt]
    rcases h1 : evalExpr ext iterE st with ⟨r1, st1⟩
    have hv := evalExpr_vars ext iterE st
    rw [h1] at hv
    simp only at hv
    rcases r1 with err | v
    · simpa using hv ▸ h
    · cases v with
      | list items => exact runForLoop_nodup ext x body items st1 (hv ▸ h)
      | int n => simpa using hv ▸ h
      | float q => simpa using hv ▸ h
      | str s => simpa using hv ▸ h
      | bool b => simpa using hv ▸ h
      | dict d => simpa using hv ▸ h
      | none => simpa using hv ▸ h
  | funcCallStmt fname =>
    rw [execStmt]
    rcases evalFunctionCall fname with err | v <;> simpa using h

/-- As `execStmt_nodup`, for statement lists. -/
theorem execStmts_nodup (ext : Ext) (l : List Stmt) (st : St)
    (h : (dictKeys st.vars).Nodup) :
    (dictKeys (((execStmts ext l st).2).vars)).Nodup := by
  cases l with
  | nil => simpa [execStmts] using h
  | cons s rest =>
    rw [execStmts]
    rcases h1 : execStmt ext s st with ⟨r1, st1⟩
    have hn1 := execStmt_nodup ext s st h
    rw [h1] at hn1
    simp only at hn1
    rcases r1 with err | u
    · simpa using hn1
    · exact execStmts_nodup ext rest st1 hn1

/-- As `execStmt_nodup`, for the FOR-loop iteration. -/
theorem runForLoop_nodup (ext : Ext) (x : String) (body : List Stmt)
    (items : List Value) (st : St) (h : (dictKeys st.vars).Nodup) :
    (dictKeys (((runForLoop ext x body items st).2).vars)).Nodup := by
  cases items with
  | nil => simpa [runForLoop] using h
  | cons item rest =>
    rw [runForLoop]
    have hset : (dictKeys (dictSet st.vars x item)).Nodup :=
      dictSet_nodup _ _ _ h
    rcases h1 : execStmts ext body { st with vars := dictSet st.vars x item }
      with ⟨r1, st2⟩
    have hn2 := execStmts_nodup ext body
      { st with vars := dictSet st.vars x item } hset
    rw [h1] at hn2
    simp only at hn2
    have hn3 := restoreVar_nodup x ((dictGet st.vars x).getD Value.none) st2 hn2
    rcases h2 : restoreVar x ((dictGet st.vars x).getD Value.none) st2
      with ⟨r2, st3⟩
    rw [h2] at hn3
    simp only at hn3
    rcases r1 with err | u
    · simp only
      rw [h2]
      rcases r2 with err2 | u2 <;> simpa using hn3
    · simp only
      rw [h2]
      rcases r2 with err2 | u2
      · simpa using hn3
      · exact runForLoop_nodup ext x body rest st3 hn3

end

/-- Core of the FOR-loop frame property: across the whole iteration
sequence — whether the body completes, faults, or even deletes the
loop variable itself — the loop variable's binding after the loop
equals its binding before, provided that binding was absent or held a
non-`None` value (a stored `None` is outside this lemma; see the C3
counterexample). -/
theorem runForLoop_restores (ext : Ext) (x : String) (body : List Stmt)
    (items : List Value) (st : St)
    (hnd : (dictKeys st.vars).Nodup)
    (hpre : dictGet st.vars x = Option.none ∨
      ∃ v, dictGet st.vars x = some v ∧ v ≠ Value.none) :
    dictGet (((runForLoop ext x body items st).2).vars) x =
      dictGet st.vars x := by
  induction items generalizing st with
  | nil => simp [runForLoop]
  | cons item rest ih =>
    simp only [runForLoop]
    rcases h1 : execStmts ext body { st with vars := dictSet st.vars x item }
      with ⟨r1, st2⟩
    have hn2 : (dictKeys st2.vars).Nodup := by
      have hx := execStmts_nodup ext body
        { st with vars := dictSet st.vars x item } (dictSet_nodup _ _ _ hnd)
      rw [h1] at hx
      simpa using hx
    rcases hpre with habs | ⟨v, hv, hvne⟩
    · have horig : (dictGet st.vars x).getD Value.none = Value.none := by
        rw [habs]; rfl
      rw [horig]
      by_cases hc : dictContains st2.vars x = true
      · have h2 : restoreVar x Value.none st2 =
            (.ok (), { st2 with vars := dictDel st2.vars x }) := by
          simp [restoreVar, hc]
        have hdel : dictGet (dictDel st2.vars x) x = Option.none :=
          dictGet_dictDel_self _ _ hn2
        rcases r1 with err | u
        · simp only
          rw [h2]
          simp only
          rw [hdel, habs]
        · simp only
          rw [h2]
          simp only
          rw [ih { st2 with vars := dictDel st2.vars x }
            (dictDel_nodup _ _ hn2) (Or.inl hdel)]
          simp only
          rw [hdel, habs]
      · have h2 : restoreVar x Value.none st2 =
            (.error (.keyError x), st2) := by
          simp [restoreVar, hc]
        have habs2 : dictGet st2.vars x = Option.none := by
          rcases hg : dictGet st2.vars x with _ | w
          · rfl
          · exact absurd (by simp [dictContains, hg]) hc
        rcases r1 with err | u <;> simp only <;> rw [h2] <;> simp only <;>
          rw [habs2, habs]
    · have horig : (dictGet st.vars x).getD Value.none = v := by
        rw [hv]; rfl
      rw [horig]
      have h2 : restoreVar x v st2 =
          (.ok (), { st2 with vars := dictSet st2.vars x v }) := by
        cases v with
        | none => exact absurd rfl hvne
        | int n => simp [restoreVar]
        | float q => simp [restoreVar]
        | str s => simp [restoreVar]
        | bool b => simp [restoreVar]
        | list xs => simp [restoreVar]
        | dict d => simp [restoreVar]
      have hres : dictGet (dictSet st2.vars x v) x = some v :=
        dictGet_dictSet_self _ _ _
      rcases r1 with err | u
      · simp only
        rw [h2]
        simp only
        rw [hres, hv]
      · simp only
        rw [h2]
        simp only
        rw [ih { st2 with vars := dictSet st2.vars x v }
          (dictSet_nodup _ _ _ hn2) (Or.inr ⟨v, hres, hvne⟩)]
        simp only
        rw [hres, hv]

/-- C3 (amended): for every FOR loop execution over an environment with
unique keys (every real interpreter state), the loop variable's
pre-loop binding is exactly restored afterwards — on normal completion
and when the body faults mid-iteration, the fault still propagating —
provided the pre-loop binding is absent or holds a non-null value.  A
pre-loop binding whose value is null is instead removed (see the
counterexample): `_execute_ForStatement` captures it with `dict.get`,
which cannot distinguish a stored `None` from absence. -/
theorem C3_for_restores_binding (ext : Ext) (x : String) (iterE : Expr)
    (body : List Stmt) (st : St)
    (hnd : (dictKeys st.vars).Nodup)
    (hpre : dictGet st.vars x = Option.none ∨
      ∃ v, dictGet st.vars x = some v ∧ v ≠ Value.none) :
    dictGet (((execStmt ext (.forStmt x iterE body) st).2).vars) x =
      dictGet st.vars x := by
  rw [execStmt]
  rcases h1 : evalExpr ext iterE st with ⟨r1, st1⟩
  have hv := evalExpr_vars ext iterE st
  rw [h1] at hv
  simp only at hv
  rw [← hv] at hnd hpre
  rcases r1 with err | v
  · simp [hv]
  · cases v with
    | list items =>
      simp only
      rw [runForLoop_restores ext x body items st1 hnd hpre, hv]
    | int n => simp [hv]
    | float q => simp [hv]
    | str s => simp [hv]
    | bool b => simp [hv]
    | dict d => simp [hv]
    | none => simp [hv]

/-- C3 counterexample: with the loop variable bound to null before the
loop (`x = None`, a present binding), running
`FOR x IN [1] DO LET y = 2 END` does not restore the binding — the
loop completes normally and `x` is gone afterwards, because the
`finally` block's `dict.get`-captured `None` takes the deletion
branch. -/
theorem C3_null_binding_not_restored :
    dictGet ([("x", Value.none)]) "x" = some Value.none ∧
    execStmt extDemo
        (.forStmt "x" (.literal (.list [.int 1]))
          [.letStmt "y" (.literal (.int 2))])
        ⟨[("x", Value.none)], []⟩ =
      (.ok (), ⟨[("y", .int 2)], []⟩) ∧
    dictGet ([("y", Value.int 2)]) "x" = Option.none := by
  refine ⟨rfl, ?_, rfl⟩
  simp [execStmt, evalExpr, runForLoop, execStmts, restoreVar,
    dictSet, dictGet, dictDel, dictContains]

/-- C3 witness: a pre-loop binding `x = 5` survives a loop whose body
even rebinds `x`; the binding is exactly restored. -/
theorem C3_witness :
    (dictKeys ([("x", Value.int 5)])).Nodup ∧
    dictGet ([("x", Value.int 5)]) "x" = some (Value.int 5) ∧
    dictGet (((execStmt extDemo
        (.forStmt "x" (.literal (.list [.int 1, .int 2]))
          [.letStmt "x" (.literal (.bool true))])
        ⟨[("x", Value.int 5)], []⟩).2).vars) "x" = some (Value.int 5) := by
  have hnd : (dictKeys ([("x", Value.int 5)])).Nodup := by
    simp [dictKeys]
  have hpre : dictGet ([("x", Value.int 5)]) "x" = some (Value.int 5) := rfl
  have h := C3_for_restores_binding extDemo "x"
    (.literal (.list [.int 1, .int 2]))
    [.letStmt "x" (.literal (.bool true))]
    ⟨[("x", Value.int 5)], []⟩ hnd
    (Or.inr ⟨Value.int 5, hpre, fun hc => Value.noConfusion hc⟩)
  exact ⟨hnd, hpre, by rw [h]; exact hpre⟩

/-! ## Dotted member access (C6)

Specification-side description of the dotted walk, to compare with the
embedded `_evaluate_Variable` loop: resolve the leftmost segment as a
variable, then walk the remaining segments as successive field lookups
into record-like (dict) values. -/

/-- Walk a list of field names through dict values; `none` as soon as
the current value is not a dict or lacks the field. -/
def walkFields : Value → List String → Option Value
  | v, [] => some v
  | .dict d, f :: rest =>
    (match dictGet d f with
     | some w => walkFields w rest
     | Option.none => Option.none)
  | _, _ :: _ => Option.none

/-- Resolve a dotted path: base variable, then field walk. -/
def pathLookup (vars : List (String × Value)) (base : String)
    (fields : List String) : Option Value :=
  match dictGet vars base with
  | some bv => walkFields bv fields
  | Option.none => Option.none

/-- `current_path + "." + member`, the accumulator of the walk. -/
def joinDot (p s : String) : String := p ++ "." ++ s

/-- The fault `_evaluate_Variable` raises at a failing segment: with a
record-like current value the member is missing (the message shows the
member, the path walked so far and the base value, interpreter.py line
152); otherwise the current value is not record-like (member, path and
the value's type, line 158). -/
def memberFailErr (seg path : String) (cur bv : Value) : Err :=
  match cur with
  | .dict _ => .memberNotFound seg path bv
  | _ => .memberOnNonDict seg path cur.typeName

/-- A successful spec-side walk is exactly a successful embedded walk. -/
theorem walkMembers_ok (bv : Value) (fields : List String) :
    ∀ (cur : Value) (path : String) (v : Value),
      walkFields cur fields = some v →
      walkMembers bv cur path fields = .ok v := by
  induction fields with
  | nil =>
    intro cur path v h
    simp [walkFields] at h
    simp [walkMembers, h]
  | cons f rest ih =>
    intro cur path v h
    cases cur with
    | dict d =>
      rcases hg : dictGet d f with _ | w
      · simp [walkFields, hg] at h
      · simp only [walkFields, hg] at h
        simp only [walkMembers, hg]
        exact ih w (path ++ "." ++ f) v h
    | int n => simp [walkFields] at h
    | float q => simp [walkFields] at h
    | str s => simp [walkFields] at h
    | bool b => simp [walkFields] at h
    | list xs => simp [walkFields] at h
    | none => simp [walkFields] at h

/-- A failing spec-side walk pinpoints a first failing segment, and the
embedded walk faults with exactly the error that names that segment,
the dotted path walked so far, and the value at fault. -/
theorem walkMembers_fail (bv : Value) (fields : List String) :
    ∀ (cur : Value) (path : String),
      walkFields cur fields = Option.none →
      ∃ pre seg post cur2,
        fields = pre ++ seg :: post ∧
        walkFields cur pre = some cur2 ∧
        walkMembers bv cur path fields =
          .error (memberFailErr seg (List.foldl joinDot path pre) cur2 bv) := by
  induction fields with
  | nil =>
    intro cur path h
    simp [walkFields] at h
  | cons f rest ih =>
    intro cur path h
    cases cur with
    | dict d =>
      rcases hg : dictGet d f with _ | w
      · refine ⟨[], f, rest, .dict d, rfl, rfl, ?_⟩
        simp [walkMembers, hg, memberFailErr, List.foldl]
      · simp only [walkFields, hg] at h
        obtain ⟨pre, seg, post, cur2, hdec, hwalk, herr⟩ :=
          ih w (path ++ "." ++ f) h
        refine ⟨f :: pre, seg, post, cur2, by rw [hdec]; simp, ?_, ?_⟩
        · simp [walkFields, hg, hwalk]
        · simp only [walkMembers, hg]
          simpa [List.foldl, joinDot] using herr
    | int n => exact ⟨[], f, rest, .int n, rfl, rfl, by simp [walkMembers, memberFailErr]⟩
    | float q => exact ⟨[], f, rest, .float q, rfl, rfl, by simp [walkMembers, memberFailErr]⟩
    | str s => exact ⟨[], f, rest, .str s, rfl, rfl, by simp [walkMembers, memberFailErr]⟩
    | bool b => exact ⟨[], f, rest, .bool b, rfl, rfl, by simp [walkMembers, memberFailErr]⟩
    | list xs => exact ⟨[], f, rest, .list xs, rfl, rfl, by simp [walkMembers, memberFailErr]⟩
    | none => exact ⟨[], f, rest, Value.none, rfl, rfl, by simp [walkMembers, memberFailErr]⟩

/-- C6: dotted variable access.  Resolving `base.f1...fn` returns
exactly the value reached by looking up the leftmost segment as a
variable and walking the rest as field lookups; a missing base faults
naming the base and the full path; and whenever the walk fails, the
fault is an undefined-member fault produced at the first failing
segment, carrying that segment, the dotted path walked so far, and the
value at fault (the failing value's type for a non-record, the base
value for a missing field) — and the state is untouched. -/
theorem C6_dotted_access_faults_name_segment (ext : Ext) (st : St)
    (name base : String) (fields : List String)
    (hdot : hasDot name = true)
    (hsplit : splitDot name = base :: fields) :
    (∀ v, pathLookup st.vars base fields = some v →
      evalExpr ext (.var name) st = (.ok v, st)) ∧
    (dictGet st.vars base = Option.none →
      evalExpr ext (.var name) st =
        (.error (.varNotFoundMember base name), st)) ∧
    (∀ bv, dictGet st.vars base = some bv →
      walkFields bv fields = Option.none →
      ∃ pre seg post cur,
        fields = pre ++ seg :: post ∧
        walkFields bv pre = some cur ∧
        evalExpr ext (.var name) st =
          (.error (memberFailErr seg (List.foldl joinDot base pre) cur bv),
            st)) := by
  refine ⟨fun v hv => ?_, fun hb => ?_, fun bv hb hw => ?_⟩
  · rw [evalExpr]
    simp only [hdot, if_true, hsplit, List.headD_cons, List.tail_cons]
    rw [pathLookup] at hv
    rcases hg : dictGet st.vars base with _ | bv
    · rw [hg] at hv; cases hv
    · rw [hg] at hv
      simp only [hg]
      simp only at hv
      rw [walkMembers_ok bv fields bv base v hv]
  · rw [evalExpr]
    simp only [hdot, if_true, hsplit, List.headD_cons, List.tail_cons, hb]
  · rw [evalExpr]
    simp only [hdot, if_true, hsplit, List.headD_cons, List.tail_cons, hb]
    obtain ⟨pre, seg, post, cur2, hdec, hwalk, herr⟩ :=
      walkMembers_fail bv fields bv base hw
    exact ⟨pre, seg, post, cur2, hdec, hwalk, by rw [herr]⟩

/-- C6 witness: in an environment with `a = {"b": {"c": 7}}` and
`u = {"b": 1}`, the access `a.b.c` returns 7, while `u.b.c` faults at
segment `c` because the intermediate value `1` is not record-like. -/
theorem C6_witness :
    (hasDot "a.b.c" = true ∧ splitDot "a.b.c" = ["a", "b", "c"]) ∧
    evalExpr extDemo (.var "a.b.c")
        ⟨[("a", .dict [("b", .dict [("c", .int 7)])])], []⟩ =
      (.ok (.int 7), ⟨[("a", .dict [("b", .dict [("c", .int 7)])])], []⟩) ∧
    (hasDot "u.b.c" = true ∧ splitDot "u.b.c" = ["u", "b", "c"]) ∧
    (∃ pre seg post cur,
      (["b", "c"] : List String) = pre ++ seg :: post ∧
      walkFields (.dict [("b", .int 1)]) pre = some cur ∧
      evalExpr extDemo (.var "u.b.c")
          ⟨[("u", .dict [("b", .int 1)])], []⟩ =
        (.error (memberFailErr seg (List.foldl joinDot "u" pre) cur
            (.dict [("b", .int 1)])),
          ⟨[("u", .dict [("b", .int 1)])], []⟩)) := by
  have h1 := (C6_dotted_access_faults_name_segment extDemo
    ⟨[("a", .dict [("b", .dict [("c", .int 7)])])], []⟩
    "a.b.c" "a" ["b", "c"] (by decide) (by decide)).1 (.int 7) rfl
  have h2 := (C6_dotted_access_faults_name_segment extDemo
    ⟨[("u", .dict [("b", .int 1)])], []⟩
    "u.b.c" "u" ["b", "c"] (by decide) (by decide)).2.2
    (.dict [("b", .int 1)]) rfl rfl
  exact ⟨⟨by decide, by decide⟩, h1, ⟨by decide, by decide⟩, h2⟩

/-- C8: comparison operators are non-associative — for any two
comparison operators, a chained comparison `a ⊙ b ⊙ c` is a syntax
fault: the parser rejects the token sequence and produces no tree, and
in particular the spec's example text `LET r = a < b < c` fails to
parse. -/
theorem C8_comparison_chaining_is_syntax_fault :
    (∀ t1 t2 : Token, (cmpOpStr t1).isSome → (cmpOpStr t2).isSome →
      parseTokens
          [.LET, .ID "r", .ASSIGN, .ID "a", t1, .ID "b", t2, .ID "c"] =
        Option.none) ∧
    parseScript "LET r = a < b < c" = Option.none := by
  refine ⟨fun t1 t2 h1 h2 => ?_, rfl⟩
  cases t1 <;> simp [cmpOpStr] at h1 <;>
    cases t2 <;> simp [cmpOpStr] at h2 <;> rfl

/-- C8 witness: the concrete chain with `<` twice. -/
theorem C8_witness :
    (cmpOpStr Token.LT).isSome = true ∧
    parseTokens
        [.LET, .ID "r", .ASSIGN, .ID "a", .LT, .ID "b", .LT, .ID "c"] =
      Option.none ∧
    parseScript "LET r = a < b < c" = Option.none := by
  refine ⟨by decide, ?_, C8_comparison_chaining_is_syntax_fault.2⟩
  exact C8_comparison_chaining_is_syntax_fault.1 Token.LT Token.LT
    (by decide) (by decide)

/-! ## Literal round-trips (C9)

Scanner evaluation lemmas for symbolic literal text, the grammar of
valid literal forms, and the end-to-end round-trip. -/

theorem takeWhile_eq_self_of_all {p : Char → Bool} (l : List Char)
    (h : ∀ c ∈ l, p c = true) : l.takeWhile p = l := by
  induction l with
  | nil => rfl
  | cons c rest ih =>
    rw [List.takeWhile_cons, if_pos (h c (by simp)),
      ih (fun c hc => h c (by simp [hc]))]

theorem dropWhile_eq_nil_of_all {p : Char → Bool} (l : List Char)
    (h : ∀ c ∈ l, p c = true) : l.dropWhile p = [] := by
  induction l with
  | nil => rfl
  | cons c rest ih =>
    rw [List.dropWhile_cons, if_pos (h c (by simp))]
    exact ih (fun c hc => h c (by simp [hc]))

theorem takeWhile_append_stop {p : Char → Bool} (l : List Char)
    (q : Char) (rest : List Char) (h : ∀ c ∈ l, p c = true)
    (hq : p q = false) :
    (l ++ q :: rest).takeWhile p = l ∧
    (l ++ q :: rest).dropWhile p = q :: rest := by
  induction l with
  | nil => simp [List.takeWhile_cons, List.dropWhile_cons, hq]
  | cons c tl ih =>
    have hc := h c (by simp)
    have := ih (fun c hc => h c (by simp [hc]))
    simp [List.takeWhile_cons, List.dropWhile_cons, hc, this]

/-- The scan of the fixed statement prefix `LET x = `: three tokens in
six scanner steps, for any fuel and any continuation. -/
theorem scanAux_letx_prefix (f : ℕ) (cs : List Char) :
    scanAux (f + 6) ("LET x = ".data ++ cs) =
      (scanAux f cs).map
        (fun ts => Token.LET :: Token.ID "x" :: Token.ASSIGN :: ts) := by
  have key : scanAux (f + 6) ("LET x = ".data ++ cs) =
      (((scanAux f cs).map (fun ts => Token.ASSIGN :: ts)).map
        (fun ts => Token.ID "x" :: ts)).map
          (fun ts => Token.LET :: ts) := rfl
  rw [key]
  cases scanAux f cs <;> rfl

/-- Facts about a digit character needed to steer the scanner into the
number branch. -/
theorem digit_char_facts (d : Char) (hd : d.isDigit = true) :
    d ≠ ' ' ∧ d ≠ '\t' ∧ d ≠ '\n' ∧ d ≠ '/' ∧ d ≠ '.' := by
  refine ⟨?_, ?_, ?_, ?_, ?_⟩ <;>
    (intro hE; rw [hE] at hd; exact absurd hd (by decide))

/-- A digit run at the end of the input scans to one integer NUMBER
token (`t_NUMBER` without a dot). -/
theorem scanAux_int_end (f : ℕ) (ds : List Char) (hne : ds ≠ [])
    (hds : ∀ c ∈ ds, c.isDigit = true) :
    scanAux (f + 2) ds = some [.NUMBER (.int (digitsNat ds))] := by
  obtain ⟨d, ds1, rfl⟩ : ∃ d ds1, ds = d :: ds1 := by
    cases ds with
    | nil => exact absurd rfl hne
    | cons d ds1 => exact ⟨d, ds1, rfl⟩
  have hd := hds d (by simp)
  obtain ⟨h1, h2, h3, h4, _⟩ := digit_char_facts d hd
  rw [scanAux, if_neg (by simp [h1, h2]), if_neg (by simp [h3]),
    if_neg (by simp [h4]), if_pos hd]
  simp [scanAux, takeWhile_eq_self_of_all _ hds,
    dropWhile_eq_nil_of_all _ hds]

/-- A dotted numeral at the end of the input scans to one float NUMBER
token (`t_NUMBER` with a dot). -/
theorem scanAux_float_end (f : ℕ) (ds fs : List Char)
    (hne : ds ≠ []) (hfs : fs ≠ [])
    (hds : ∀ c ∈ ds, c.isDigit = true)
    (hfds : ∀ c ∈ fs, c.isDigit = true) :
    scanAux (f + 2) (ds ++ '.' :: fs) =
      some [.NUMBER (.float (floatVal ds fs))] := by
  obtain ⟨d, ds1, rfl⟩ : ∃ d ds1, ds = d :: ds1 := by
    cases ds with
    | nil => exact absurd rfl hne
    | cons d ds1 => exact ⟨d, ds1, rfl⟩
  obtain ⟨c2, fs1, rfl⟩ : ∃ c2 fs1, fs = c2 :: fs1 := by
    cases fs with
    | nil => exact absurd rfl hfs
    | cons c2 fs1 => exact ⟨c2, fs1, rfl⟩
  have hd := hds d (by simp)
  have hc2 := hfds c2 (by simp)
  obtain ⟨h1, h2, h3, h4, _⟩ := digit_char_facts d hd
  have htw := takeWhile_append_stop (p := Char.isDigit) (d :: ds1) '.'
    (c2 :: fs1) hds (by decide)
  simp only [List.cons_append] at htw ⊢
  rw [scanAux, if_neg (by simp [h1, h2]), if_neg (by simp [h3]),
    if_neg (by simp [h4]), if_pos hd]
  rw [htw.1, htw.2]
  simp [scanAux, hc2, takeWhile_eq_self_of_all _ hfds,
    dropWhile_eq_nil_of_all _ hfds]

/-- A double-quoted string at the end of the input scans to one STRING
token, given its body match and its decoding. -/
theorem scanAux_str_end (f : ℕ) (body dcs : List Char)
    (hbody : strBody (body ++ ['"']) = some (body, []))
    (hdec : decodeUE (((body.map utf8Bytes).flatten).length + 1)
      ((body.map utf8Bytes).flatten) = some dcs) :
    scanAux (f + 2) ('"' :: (body ++ ['"'])) =
      some [.STRING (String.mk dcs)] := by
  rw [scanAux, if_neg (by decide), if_neg (by decide), if_neg (by decide),
    if_neg (by decide), if_neg (by decide), if_pos rfl, hbody]
  simp only [Option.elim]
  rw [hdec]
  simp only [Option.elim]
  rw [scanAux]
  rfl

/-! ### Valid literal forms -/

/-- One constituent of a string literal's source text: a plain
character, or a backslash escape `\c`. -/
inductive StrItem where
  | plain (c : Char)
  | esc (c : Char)
deriving Repr

/-- The simple escape characters covered by the round-trip claim (the
standard single-character escapes of `unicode_escape`). -/
def escSet : List Char := ['n', 't', 'r', 'a', 'b', 'f', 'v', '\\', '\'', '"']

/-- Validity: a plain character is ASCII and neither the quote nor the
backslash; an escape character is from the simple set. -/
def StrItem.wfI : StrItem → Prop
  | .plain c => c.toNat < 128 ∧ c.toNat ≠ 34 ∧ c.toNat ≠ 92
  | .esc c => c ∈ escSet

/-- Source rendering of one item. -/
def StrItem.render : StrItem → List Char
  | .plain c => [c]
  | .esc c => ['\\', c]

/-- Source rendering of a string literal body. -/
def renderItems (items : List StrItem) : List Char :=
  (items.map StrItem.render).flatten

/-- The character an item denotes (escapes resolved). -/
def StrItem.decoded : StrItem → Char
  | .plain c => c
  | .esc c =>
    if c = 'n' then '\n'
    else if c = 't' then '\t'
    else if c = 'r' then Char.ofNat 13
    else if c = 'a' then Char.ofNat 7
    else if c = 'b' then Char.ofNat 8
    else if c = 'f' then Char.ofNat 12
    else if c = 'v' then Char.ofNat 11
    else if c = '\\' then '\\'
    else if c = '\'' then '\''
    else '"'

theorem renderItems_cons (i : StrItem) (tl : List StrItem) :
    renderItems (i :: tl) = i.render ++ renderItems tl := by
  simp [renderItems]

theorem strBody_quote (rest : List Char) :
    strBody ('"' :: rest) = some ([], rest) := by
  cases rest <;> simp [strBody]

theorem strBody_cons_plain (c : Char) (cs : List Char) (hq : c ≠ '"')
    (hb : c ≠ '\\') :
    strBody (c :: cs) = (strBody cs).map (fun p => (c :: p.1, p.2)) := by
  cases cs <;> simp [strBody, hq, hb]

theorem strBody_cons_esc (c2 : Char) (rest : List Char) (hnl : c2 ≠ '\n') :
    strBody ('\\' :: c2 :: rest) =
      (strBody rest).map (fun p => ('\\' :: c2 :: p.1, p.2)) := by
  simp [strBody, hnl]

/-- The `t_STRING` body regex accepts exactly the rendered items, up to
the closing quote. -/
theorem strBody_renderItems (items : List StrItem)
    (hwf : ∀ i ∈ items, i.wfI) (rest : List Char) :
    strBody (renderItems items ++ '"' :: rest) =
      some (renderItems items, rest) := by
  induction items with
  | nil =>
    rw [show renderItems [] = [] from rfl, List.nil_append, strBody_quote]
  | cons i tl ih =>
    have hi := hwf i (by simp)
    have ihh := ih (fun j hj => hwf j (by simp [hj]))
    cases i with
    | plain c =>
      obtain ⟨hlt, h34, h92⟩ := hi
      have hq : c ≠ '"' := fun hE => by rw [hE] at h34; exact h34 rfl
      have hb : c ≠ '\\' := fun hE => by rw [hE] at h92; exact h92 rfl
      rw [renderItems_cons]
      simp only [StrItem.render, List.cons_append, List.nil_append]
      rw [strBody_cons_plain c _ hq hb, ihh]
      rfl
    | esc c =>
      have hnl : c ≠ '\n' := fun hE => by
        rw [hE] at hi
        simp [StrItem.wfI, escSet] at hi
      rw [renderItems_cons]
      simp only [StrItem.render, List.cons_append, List.nil_append]
      rw [strBody_cons_esc c _ hnl, ihh]
      rfl

/-- A single-byte UTF-8 character. -/
theorem utf8_single (c : Char) (h : c.toNat < 128) :
    utf8Bytes c = [c.toNat] := by
  rw [utf8Bytes]
  simp [h]

/-- Decoding one plain (non-backslash) byte. -/
theorem decodeUE_plain (f : ℕ) (b : ℕ) (hb : b ≠ 92) (B : List ℕ) :
    decodeUE (f + 1) (b :: B) =
      (decodeUE f B).map (fun cs => Char.ofNat (b % 256) :: cs) := by
  rw [decodeUE, if_pos hb]

/-- Decoding one simple escape: `\c` becomes its denoted character. -/
theorem decodeUE_esc (c : Char) (hc : c ∈ escSet) (f : ℕ) (B : List ℕ) :
    decodeUE (f + 1) (92 :: c.toNat :: B) =
      (decodeUE f B).map (fun cs => StrItem.decoded (.esc c) :: cs) := by
  fin_cases hc <;>
    · rw [decodeUE, if_neg (by decide), if_neg (by simp)]
      rfl

/-- Each rendered item contributes at least one byte. -/
theorem renderItems_bytes_len (items : List StrItem)
    (hwf : ∀ i ∈ items, i.wfI) :
    items.length ≤ (((renderItems items).map utf8Bytes).flatten).length := by
  induction items with
  | nil => simp [renderItems]
  | cons i tl ih =>
    have hi := hwf i (by simp)
    have ihh := ih (fun j hj => hwf j (by simp [hj]))
    rw [renderItems_cons]
    cases i with
    | plain c =>
      obtain ⟨hlt, h34, h92⟩ := hi
      simp only [StrItem.render, List.cons_append, List.nil_append,
        List.map_cons, List.flatten_cons, List.length_cons]
      rw [utf8_single c hlt]
      simp only [List.length_append, List.length_cons]
      omega
    | esc c =>
      have hc : c ∈ escSet := hi
      have h128 : c.toNat < 128 := by fin_cases hc <;> decide
      simp only [StrItem.render, List.cons_append, List.nil_append,
        List.map_cons, List.flatten_cons, List.length_cons]
      rw [utf8_single '\\' (by decide), utf8_single c h128]
      simp only [List.length_append, List.length_cons]
      omega

/-- `unicode_escape` decoding of the rendered items yields exactly the
denoted characters, with one fuel unit per item plus any reserve. -/
theorem decodeUE_renderItems (items : List StrItem)
    (hwf : ∀ i ∈ items, i.wfI) (f : ℕ) :
    decodeUE (items.length + (f + 1))
        (((renderItems items).map utf8Bytes).flatten) =
      some (items.map StrItem.decoded) := by
  induction items with
  | nil =>
    simp only [List.length_nil, Nat.zero_add, List.map_nil]
    rw [show renderItems [] = [] from rfl]
    simp only [List.map_nil, List.flatten_nil]
    rw [decodeUE]
  | cons i tl ih =>
    have hi := hwf i (by simp)
    have ihh := ih (fun j hj => hwf j (by simp [hj]))
    have hfuel : (i :: tl).length + (f + 1) = tl.length + (f + 1) + 1 := by
      simp only [List.length_cons]
      omega
    cases i with
    | plain c =>
      obtain ⟨hlt, h34, h92⟩ := hi
      rw [renderItems_cons]
      simp only [StrItem.render, List.map_append, List.flatten_append,
        List.map_cons, List.map_nil, List.flatten_cons, List.flatten_nil] at hfuel ⊢
      rw [utf8_single c hlt]
      simp only [List.cons_append, List.nil_append, List.append_nil]
      rw [hfuel, decodeUE_plain _ c.toNat h92, ihh]
      rw [Nat.mod_eq_of_lt (show c.toNat < 256 by omega), Char.ofNat_toNat]
      rfl
    | esc c =>
      have hc : c ∈ escSet := hi
      have h128 : c.toNat < 128 := by fin_cases hc <;> decide
      rw [renderItems_cons]
      simp only [StrItem.render, List.map_append, List.flatten_append,
        List.map_cons, List.map_nil, List.flatten_cons, List.flatten_nil] at hfuel ⊢
      rw [utf8_single '\\' (by decide), utf8_single c h128]
      simp only [List.cons_append, List.nil_append, List.append_nil]
      rw [hfuel, show ('\\').toNat = 92 from rfl, decodeUE_esc c hc, ihh]
      rfl

/-! ### Numerals -/

/-- The spec-side value of a digit run: the decimal numeral it denotes
(`Nat.ofDigits` with least-significant digit first). -/
def decimalVal (ds : List Char) : ℕ :=
  Nat.ofDigits 10 ((ds.map fun c => c.toNat - 48).reverse)

theorem foldl_digits_eq (ds : List Char) : ∀ a : ℕ,
    ds.foldl (fun a c => 10 * a + (c.toNat - 48)) a =
      a * 10 ^ ds.length + decimalVal ds := by
  induction ds with
  | nil => intro a; simp [decimalVal, Nat.ofDigits]
  | cons d tl ih =>
    intro a
    simp only [List.foldl_cons, decimalVal, List.map_cons,
      List.reverse_cons, List.length_cons]
    rw [ih, Nat.ofDigits_append]
    simp only [decimalVal] at *
    simp [Nat.ofDigits]
    ring

/-- The lexer's Horner fold computes the numeral's value. -/
theorem digitsNat_eq (ds : List Char) : digitsNat ds = decimalVal ds := by
  have h := foldl_digits_eq ds 0
  simpa [digitsNat] using h

/-! ### The literal grammar and the round-trip -/

/-- The four valid literal forms of the claim: integer numeral, dotted
numeral, double-quoted string with backslash escapes, boolean in the
committed uppercase case. -/
inductive LitForm where
  | intLit (ds : List Char)
  | floatLit (ds fs : List Char)
  | strLit (items : List StrItem)
  | boolLit (b : Bool)

/-- Well-formedness of a literal form. -/
def LitForm.wf : LitForm → Prop
  | .intLit ds => ds ≠ [] ∧ ∀ c ∈ ds, c.isDigit = true
  | .floatLit ds fs => ds ≠ [] ∧ fs ≠ [] ∧
      (∀ c ∈ ds, c.isDigit = true) ∧ ∀ c ∈ fs, c.isDigit = true
  | .strLit items => ∀ i ∈ items, i.wfI
  | .boolLit _ => True

/-- The source text of the literal. -/
def LitForm.render : LitForm → String
  | .intLit ds => String.mk ds
  | .floatLit ds fs => String.mk (ds ++ '.' :: fs)
  | .strLit items => String.mk ('"' :: (renderItems items ++ ['"']))
  | .boolLit true => "TRUE"
  | .boolLit false => "FALSE"

/-- The value the literal denotes: integers as integers, dotted
numerals as floats (exact decimal value), strings with quotes stripped
and escapes resolved, TRUE/FALSE as booleans. -/
def LitForm.denote : LitForm → Value
  | .intLit ds => .int (decimalVal ds)
  | .floatLit ds fs =>
      .float ((decimalVal ds : ℚ) + (decimalVal fs : ℚ) / 10 ^ fs.length)
  | .strLit items => .str (String.mk (items.map StrItem.decoded))
  | .boolLit b => .bool b

/-- The single token the literal scans to. -/
def LitForm.token : LitForm → Token
  | .intLit ds => .NUMBER (.int (decimalVal ds))
  | .floatLit ds fs =>
      .NUMBER (.float ((decimalVal ds : ℚ) + (decimalVal fs : ℚ) / 10 ^ fs.length))
  | .strLit items => .STRING (String.mk (items.map StrItem.decoded))
  | .boolLit b => .BOOLEAN b

/-- Scanning `LET x = <literal>` produces exactly the four expected
tokens, for every valid literal form. -/
theorem tokenize_letx (lf : LitForm) (hwf : lf.wf) :
    tokenize ("LET x = " ++ lf.render) =
      some [.LET, .ID "x", .ASSIGN, lf.token] := by
  cases lf with
  | intLit ds =>
    obtain ⟨hne, hds⟩ := hwf
    rw [tokenize, String.data_append,
      show ("LET x = " ++ LitForm.render (.intLit ds)).length + 1 =
        ds.length + 9 by
          rw [String.length_append]
          simp [LitForm.render, String.length]
          omega]
    rw [show ds.length + 9 = ds.length + 3 + 6 from rfl,
      scanAux_letx_prefix (ds.length + 3),
      show (LitForm.render (.intLit ds)).data = ds from rfl,
      show ds.length + 3 = ds.length + 1 + 2 from rfl,
      scanAux_int_end (ds.length + 1) ds hne hds]
    simp [LitForm.token, digitsNat_eq]
  | floatLit ds fs =>
    obtain ⟨hne, hfs, hds, hfds⟩ := hwf
    rw [tokenize, String.data_append,
      show ("LET x = " ++ LitForm.render (.floatLit ds fs)).length + 1 =
        (ds ++ '.' :: fs).length + 9 by
          rw [String.length_append]
          simp [LitForm.render, String.length]
          omega]
    rw [show (ds ++ '.' :: fs).length + 9 = (ds ++ '.' :: fs).length + 3 + 6
        from rfl,
      scanAux_letx_prefix ((ds ++ '.' :: fs).length + 3),
      show (LitForm.render (.floatLit ds fs)).data = ds ++ '.' :: fs from rfl,
      show (ds ++ '.' :: fs).length + 3 = (ds ++ '.' :: fs).length + 1 + 2
        from rfl,
      scanAux_float_end ((ds ++ '.' :: fs).length + 1) ds fs hne hfs hds hfds]
    simp [LitForm.token, floatVal, digitsNat_eq]
  | strLit items =>
    have hlen := renderItems_bytes_len items hwf
    have hdec := decodeUE_renderItems items hwf
      ((((renderItems items).map utf8Bytes).flatten).length - items.length)
    rw [show items.length +
        (((((renderItems items).map utf8Bytes).flatten).length - items.length) + 1) =
        ((((renderItems items).map utf8Bytes).flatten).length + 1) by omega] at hdec
    rw [tokenize, String.data_append,
      show ("LET x = " ++ LitForm.render (.strLit items)).length + 1 =
        ('"' :: (renderItems items ++ ['"'])).length + 9 by
          rw [String.length_append]
          simp [LitForm.render, String.length]
          omega]
    rw [show ('"' :: (renderItems items ++ ['"'])).length + 9 =
        ('"' :: (renderItems items ++ ['"'])).length + 3 + 6 from rfl,
      scanAux_letx_prefix (('"' :: (renderItems items ++ ['"'])).length + 3),
      show (LitForm.render (.strLit items)).data =
        '"' :: (renderItems items ++ ['"']) from rfl,
      show ('"' :: (renderItems items ++ ['"'])).length + 3 =
        ('"' :: (renderItems items ++ ['"'])).length + 1 + 2 from rfl,
      scanAux_str_end (('"' :: (renderItems items ++ ['"'])).length + 1)
        (renderItems items) (items.map StrItem.decoded)
        (by simpa using strBody_renderItems items hwf []) hdec]
    rfl
  | boolLit b => cases b <;> rfl

/-- C9: for every valid literal form — integer numeral, dotted numeral,
double-quoted string with simple backslash escapes, uppercase boolean —
the script `LET x = <literal>` parses to the expected assignment of the
denoted value; executing it stores exactly that value, and looking `x`
up returns it unchanged (integers as integers, dotted numerals as
floats, strings decoded, TRUE/FALSE as booleans). -/
theorem C9_literal_assign_lookup_roundtrip (lf : LitForm) (ext : Ext)
    (st : St) (hwf : lf.wf) :
    parseScript ("LET x = " ++ lf.render) =
      some ⟨[.letStmt "x" (.literal lf.denote)]⟩ ∧
    execute ext ⟨[.letStmt "x" (.literal lf.denote)]⟩ st =
      (.ok (), { st with vars := dictSet st.vars "x" lf.denote }) ∧
    evalExpr ext (.var "x") { st with vars := dictSet st.vars "x" lf.denote } =
      (.ok lf.denote, { st with vars := dictSet st.vars "x" lf.denote }) := by
  refine ⟨?_, ?_, ?_⟩
  · rw [parseScript, tokenize_letx lf hwf]
    cases lf <;> rfl
  · simp [execute, execStmts, execStmt, evalExpr]
  · have hdot : hasDot "x" = false := by decide
    simp [evalExpr, hdot, dictGet_dictSet_self]

/-- C9 witness: the dotted numeral `31.5` (float 63/2), via the literal
form with digits `['3','1']` and fraction `['5']`. -/
theorem C9_witness :
    (LitForm.floatLit ['3', '1'] ['5']).wf ∧
    ("LET x = " ++ (LitForm.floatLit ['3', '1'] ['5']).render =
      "LET x = 31.5") ∧
    (LitForm.floatLit ['3', '1'] ['5']).denote = .float (63 / 2) ∧
    parseScript "LET x = 31.5" =
      some ⟨[.letStmt "x"
        (.literal (LitForm.floatLit ['3', '1'] ['5']).denote)]⟩ ∧
    execute extDemo
        ⟨[.letStmt "x" (.literal (LitForm.floatLit ['3', '1'] ['5']).denote)]⟩
        initSt =
      (.ok (),
        { initSt with
            vars := dictSet initSt.vars "x"
              (LitForm.floatLit ['3', '1'] ['5']).denote }) := by
  have hwf : (LitForm.floatLit ['3', '1'] ['5']).wf := by
    refine ⟨by decide, by decide, ?_, ?_⟩ <;> decide
  have h := C9_literal_assign_lookup_roundtrip
    (LitForm.floatLit ['3', '1'] ['5']) extDemo initSt hwf
  refine ⟨hwf, rfl, ?_, ?_, h.2.1⟩
  · show Value.float _ = Value.float _
    rw [show decimalVal ['3', '1'] = 31 from rfl,
      show decimalVal ['5'] = 5 from rfl]
    norm_num
  · exact h.1

end Nuwa
